import Mathlib

/-!
Verification of the CBT (Channel Broadcast Tracker) concurrent scheduling core.

This file gives a shallow embedding, in Lean 4, of the parts of the Python
source relevant to the frozen claims: the channel data model and the roster
deduplication (`cbt/channels.py`), the round-robin next-channel resolution,
the per-slot worker cycle and subprocess monitor (`cbt/slot.py`), the fetch
processor's download/hook logic (`cbt/processor.py`), and the display-side
status consumer (`cbt/display.py`).

Conventions of the embedding:
* Python `datetime` values (naive, second precision, as read and written via
  the `"%Y-%m-%d %H:%M:%S"` format in `util.py`) are the `DateTime` structure.
* Impure inputs (the wall clock, yt-dlp results, process liveness) become
  explicit parameters.
* Python's unbounded `while`/recursion are modelled with explicit fuel;
  exhausting the interpreter's recursion limit (Python `RecursionError`)
  is a distinguished outcome.
-/

namespace CBT

/-- Naive timestamp at second precision, the shape produced by
`datetime.strptime(s, "%Y-%m-%d %H:%M:%S")` in `util.str_time`. -/
structure DateTime where
  year : Nat
  month : Nat
  day : Nat
  hour : Nat
  minute : Nat
  second : Nat
deriving DecidableEq, Repr

/-- Embedding of `util.same_date`: `dt_a.date() == dt_b.date()` compares only
the calendar-date components. -/
def sameDate (a b : DateTime) : Bool :=
  a.year == b.year && a.month == b.month && a.day == b.day

/-- Embedding of the `Channel` dataclass (`cbt/channels.py`) after
`__post_init__` has normalised its fields: `rank` is an int or `None`, the
four timestamp fields are `datetime` or `None`, and the three message fields
are strings or `None`. -/
structure Channel where
  name : String
  rank : Option Int
  last_download : Option DateTime
  last_complete : Option DateTime
  last_attempt : Option DateTime
  last_error : Option DateTime
  last_error_message : Option String
  last_resolution : Option String
  last_bitrate : Option String
deriving DecidableEq, Repr

/-- Python's `keep.f if keep.f is not None else other.f` selector used
throughout `Channels.__remove_duplicates`. -/
def keepFirst {α : Type} (a b : Option α) : Option α :=
  match a with
  | some v => some v
  | none => b

/-- First non-null value of a list of optional values, in order. -/
def firstSome {α : Type} : List (Option α) → Option α
  | [] => none
  | a :: rest => keepFirst a (firstSome rest)

/-- Embedding of the merged record built in `Channels.__remove_duplicates`:
`name` and `rank` are taken from the record already kept, every other field
keeps the existing value when it is non-null and otherwise takes the
duplicate's value. -/
def mergeChannel (keep ch : Channel) : Channel where
  name := keep.name
  rank := keep.rank
  last_download := keepFirst keep.last_download ch.last_download
  last_complete := keepFirst keep.last_complete ch.last_complete
  last_attempt := keepFirst keep.last_attempt ch.last_attempt
  last_error := keepFirst keep.last_error ch.last_error
  last_error_message := keepFirst keep.last_error_message ch.last_error_message
  last_resolution := keepFirst keep.last_resolution ch.last_resolution
  last_bitrate := keepFirst keep.last_bitrate ch.last_bitrate

/-- Lookup in the `seen` dict of `Channels.__remove_duplicates`, modelled as
an association list from channel name to index in `result`. -/
def lookupSeen (seen : List (String × Nat)) (n : String) : Option Nat :=
  match seen with
  | [] => none
  | (m, i) :: rest => if m = n then some i else lookupSeen rest n

/-- Loop body of `Channels.__remove_duplicates`: walk the roster; a name not
yet seen is appended to `result` and recorded in `seen` with its index; a
seen name merges into the record at its recorded index. -/
def removeDuplicatesAux : List Channel → List (String × Nat) → List Channel → List Channel
  | [], _, result => result
  | ch :: rest, seen, result =>
    match lookupSeen seen ch.name with
    | none =>
      removeDuplicatesAux rest ((ch.name, result.length) :: seen) (result ++ [ch])
    | some index =>
      match result[index]? with
      | none => removeDuplicatesAux rest seen result
      | some keep => removeDuplicatesAux rest seen (result.set index (mergeChannel keep ch))

/-- Embedding of `Channels.__remove_duplicates` (applied to `self.__channels`
at the end of the `Channels` constructor). -/
def removeDuplicates (channels : List Channel) : List Channel :=
  removeDuplicatesAux channels [] []

/-- Duplicates of a name in the roster, in file order. -/
def filterName (channels : List Channel) (n : String) : List Channel :=
  channels.filter (fun c => c.name = n)

/-- Merge of a nonempty duplicate group, folding `mergeChannel` from the
first occurrence. -/
def mergeList : List Channel → Option Channel
  | [] => none
  | d :: ds => some (ds.foldl mergeChannel d)

theorem keepFirst_none {α : Type} (a : Option α) : keepFirst a none = a := by
  cases a <;> rfl

theorem keepFirst_assoc {α : Type} (a b c : Option α) :
    keepFirst (keepFirst a b) c = keepFirst a (keepFirst b c) := by
  cases a <;> rfl

theorem foldl_merge_name (d : Channel) (ds : List Channel) :
    (ds.foldl mergeChannel d).name = d.name := by
  induction ds generalizing d with
  | nil => rfl
  | cons e ds ih => simpa using ih (mergeChannel d e)

theorem foldl_merge_rank (d : Channel) (ds : List Channel) :
    (ds.foldl mergeChannel d).rank = d.rank := by
  induction ds generalizing d with
  | nil => rfl
  | cons e ds ih => simpa using ih (mergeChannel d e)

theorem foldl_merge_field {α : Type} (f : Channel → Option α)
    (hf : ∀ a b, f (mergeChannel a b) = keepFirst (f a) (f b))
    (d : Channel) (ds : List Channel) :
    f (ds.foldl mergeChannel d) = firstSome ((d :: ds).map f) := by
  induction ds generalizing d with
  | nil => simp [firstSome, keepFirst_none]
  | cons e ds ih =>
    have h1 := ih (mergeChannel d e)
    simp only [List.foldl_cons] at *
    rw [h1]
    simp only [List.map_cons, firstSome, hf, keepFirst_assoc]

theorem mergeList_append_single (l : List Channel) (v c : Channel)
    (h : mergeList l = some v) :
    mergeList (l ++ [c]) = some (mergeChannel v c) := by
  cases l with
  | nil => simp [mergeList] at h
  | cons d ds =>
    simp only [mergeList, Option.some_inj] at h
    simp [mergeList, List.foldl_append, h]

theorem filterName_append_single (pre : List Channel) (c : Channel) (n : String) :
    filterName (pre ++ [c]) n =
      filterName pre n ++ (if c.name = n then [c] else []) := by
  simp only [filterName, List.filter_append]
  congr 1
  by_cases h : c.name = n <;> simp [List.filter, h]

/-- Invariant-carrying correctness lemma for the `__remove_duplicates` loop:
given a state (`seen`, `result`) consistent with the already-consumed prefix
`pre`, running the loop over the remaining channels yields a list whose
entries are exactly the per-name merges of `pre ++ rest`, with pairwise
distinct names covering exactly the names of `pre ++ rest`. -/
theorem removeDuplicatesAux_spec (rest : List Channel) :
    ∀ (pre : List Channel) (seen : List (String × Nat)) (result : List Channel),
    (∀ i (h : i < result.length),
        mergeList (filterName pre (result[i]).name) = some result[i]) →
    (∀ i j (hi : i < result.length) (hj : j < result.length),
        (result[i]).name = (result[j]).name → i = j) →
    (∀ n i, lookupSeen seen n = some i →
        ∃ h : i < result.length, (result[i]).name = n) →
    (∀ ch ∈ pre, (lookupSeen seen ch.name).isSome) →
    (∀ i (h : i < result.length), ∃ ch ∈ pre, ch.name = (result[i]).name) →
    (∀ ch ∈ pre, ∃ i, ∃ h : i < result.length, (result[i]).name = ch.name) →
    ((∀ i (h : i < (removeDuplicatesAux rest seen result).length),
        mergeList (filterName (pre ++ rest) ((removeDuplicatesAux rest seen result)[i]).name)
          = some (removeDuplicatesAux rest seen result)[i]) ∧
     (∀ i j (hi : i < (removeDuplicatesAux rest seen result).length)
        (hj : j < (removeDuplicatesAux rest seen result).length),
        ((removeDuplicatesAux rest seen result)[i]).name
          = ((removeDuplicatesAux rest seen result)[j]).name → i = j) ∧
     (∀ i (h : i < (removeDuplicatesAux rest seen result).length),
        ∃ ch ∈ pre ++ rest, ch.name = ((removeDuplicatesAux rest seen result)[i]).name) ∧
     (∀ ch ∈ pre ++ rest, ∃ i, ∃ h : i < (removeDuplicatesAux rest seen result).length,
        ((removeDuplicatesAux rest seen result)[i]).name = ch.name)) := by
  induction rest with
  | nil =>
    intro pre seen result inv1 inv2 inv3 _ inv5 inv6
    simp only [removeDuplicatesAux, List.append_nil]
    exact ⟨inv1, inv2, inv5, inv6⟩
  | cons ch rest2 ih =>
    intro pre seen result inv1 inv2 inv3 inv4 inv5 inv6
    match hl : lookupSeen seen ch.name with
    | none =>
      have hnotin : ∀ c ∈ pre, c.name ≠ ch.name := by
        intro c hc heq
        have := inv4 c hc
        rw [heq, hl] at this
        simp at this
      have hfilter_nil : filterName pre ch.name = [] := by
        simp only [filterName]
        rw [List.filter_eq_nil_iff]
        intro c hc
        simpa using hnotin c hc
      have hstep : removeDuplicatesAux (ch :: rest2) seen result =
          removeDuplicatesAux rest2 ((ch.name, result.length) :: seen) (result ++ [ch]) := by
        simp [removeDuplicatesAux, hl]
      rw [hstep]
      have hlen : (result ++ [ch]).length = result.length + 1 := by simp
      -- names of old entries differ from ch.name
      have hold_ne : ∀ i (h : i < result.length), (result[i]).name ≠ ch.name := by
        intro i h
        obtain ⟨c, hc, hcname⟩ := inv5 i h
        rw [← hcname]
        exact hnotin c hc
      have hget_old : ∀ i (h : i < result.length),
          getElem (result ++ [ch]) i (by simp; omega) = result[i] := by
        intro i h
        exact List.getElem_append_left h
      have hget_new : getElem (result ++ [ch]) result.length (by simp) = ch :=
        List.getElem_concat_length result ch result.length rfl (by simp)
      have hmain := ih (pre ++ [ch]) ((ch.name, result.length) :: seen) (result ++ [ch])
        (by -- inv1
          intro i h
          rw [hlen] at h
          rcases Nat.lt_or_ge i result.length with hi | hi
          · have hne : ¬ (ch.name = (result[i]).name) := fun hh => hold_ne i hi hh.symm
            rw [hget_old i hi, filterName_append_single, if_neg hne]
            simpa using inv1 i hi
          · have hieq : i = result.length := by omega
            subst hieq
            rw [hget_new, filterName_append_single, if_pos rfl, hfilter_nil]
            rfl)
        (by -- inv2
          intro i j hi hj hname
          rw [hlen] at hi hj
          rcases Nat.lt_or_ge i result.length with hi2 | hi2 <;>
            rcases Nat.lt_or_ge j result.length with hj2 | hj2
          · rw [hget_old i hi2, hget_old j hj2] at hname
            exact inv2 i j hi2 hj2 hname
          · have : j = result.length := by omega
            subst this
            rw [hget_old i hi2, hget_new] at hname
            exact absurd hname (hold_ne i hi2)
          · have : i = result.length := by omega
            subst this
            rw [hget_new, hget_old j hj2] at hname
            exact absurd hname.symm (hold_ne j hj2)
          · omega)
        (by -- inv3
          intro n i hlook
          simp only [lookupSeen] at hlook
          by_cases hn : ch.name = n
          · rw [if_pos hn] at hlook
            cases hlook
            exact ⟨by simp, by rw [hget_new]; exact hn⟩
          · rw [if_neg hn] at hlook
            obtain ⟨h, hname⟩ := inv3 n i hlook
            exact ⟨by simp; omega, by rw [hget_old i h]; exact hname⟩)
        (by -- inv4
          intro c hc
          rcases List.mem_append.mp hc with hc | hc
          · simp only [lookupSeen]
            by_cases hn : ch.name = c.name
            · rw [if_pos hn]; rfl
            · rw [if_neg hn]; exact inv4 c hc
          · simp only [List.mem_singleton] at hc
            subst hc
            simp [lookupSeen])
        (by -- inv5
          intro i h
          rw [hlen] at h
          rcases Nat.lt_or_ge i result.length with hi | hi
          · obtain ⟨c, hc, hcname⟩ := inv5 i hi
            exact ⟨c, List.mem_append_left _ hc, by rw [hget_old i hi]; exact hcname⟩
          · have : i = result.length := by omega
            subst this
            exact ⟨ch, List.mem_append_right _ (by simp), by rw [hget_new]⟩)
        (by -- inv6
          intro c hc
          rcases List.mem_append.mp hc with hc | hc
          · obtain ⟨i, h, hname⟩ := inv6 c hc
            exact ⟨i, by simp; omega, by rw [hget_old i h]; exact hname⟩
          · simp only [List.mem_singleton] at hc
            subst hc
            exact ⟨result.length, by simp, by rw [hget_new]⟩)
      have happ : pre ++ [ch] ++ rest2 = pre ++ ch :: rest2 := by
        simp
      rw [happ] at hmain
      exact hmain
    | some index =>
      obtain ⟨hidx, hname⟩ := inv3 ch.name index hl
      have hstep : removeDuplicatesAux (ch :: rest2) seen result =
          removeDuplicatesAux rest2 seen
            (result.set index (mergeChannel result[index] ch)) := by
        simp [removeDuplicatesAux, hl, List.getElem?_eq_getElem hidx]
      rw [hstep]
      set merged := mergeChannel result[index] ch with hmerged
      have hlen : (result.set index merged).length = result.length := by simp
      have hname_pres : ∀ j (h : j < result.length),
          (getElem (result.set index merged) j (by simpa using h)).name = (result[j]).name := by
        intro j h
        rw [List.getElem_set]
        by_cases hji : index = j
        · subst hji
          simp [hmerged, mergeChannel]
        · rw [if_neg hji]
      have hget_set : ∀ j (h : j < result.length), j ≠ index →
          getElem (result.set index merged) j (by simpa using h) = result[j] := by
        intro j h hji
        rw [List.getElem_set, if_neg (fun hh => hji hh.symm)]
      have hin_pre : ∃ c ∈ pre, c.name = ch.name := by
        obtain ⟨c, hc, hcname⟩ := inv5 index hidx
        exact ⟨c, hc, by rw [hcname, hname]⟩
      have hmain := ih (pre ++ [ch]) seen (result.set index merged)
        (by -- inv1
          intro j h
          rw [hlen] at h
          by_cases hji : j = index
          · have hthis : (getElem (result.set index merged) j (by simpa using h)) = merged := by
              rw [List.getElem_set, if_pos hji.symm]
            rw [hthis]
            have hmname : merged.name = ch.name := by
              simp [hmerged, mergeChannel, hname]
            rw [hmname, filterName_append_single, if_pos rfl]
            have h1 := inv1 index hidx
            rw [hname] at h1
            rw [hmerged]
            exact mergeList_append_single _ _ _ h1
          · rw [hget_set j h hji]
            have hne : (result[j]).name ≠ ch.name := by
              intro hh
              exact hji (inv2 j index h hidx (by rw [hh, hname]))
            rw [filterName_append_single, if_neg (fun hh => hne hh.symm)]
            simpa [List.append_nil] using inv1 j h
          )
        (by -- inv2
          intro i j hi hj hn
          rw [hlen] at hi hj
          rw [hname_pres i hi, hname_pres j hj] at hn
          exact inv2 i j hi hj hn)
        (by -- inv3
          intro n i hlook
          obtain ⟨h, hn⟩ := inv3 n i hlook
          exact ⟨by simpa using h, by rw [hname_pres i h]; exact hn⟩)
        (by -- inv4
          intro c hc
          rcases List.mem_append.mp hc with hc | hc
          · exact inv4 c hc
          · simp only [List.mem_singleton] at hc
            subst hc
            rw [hl]; rfl)
        (by -- inv5
          intro i h
          rw [hlen] at h
          obtain ⟨c, hc, hcname⟩ := inv5 i h
          exact ⟨c, List.mem_append_left _ hc, by rw [hname_pres i h]; exact hcname⟩)
        (by -- inv6
          intro c hc
          rcases List.mem_append.mp hc with hc | hc
          · obtain ⟨i, h, hn⟩ := inv6 c hc
            exact ⟨i, by simpa using h, by rw [hname_pres i h]; exact hn⟩
          · simp only [List.mem_singleton] at hc
            subst hc
            exact ⟨index, by simpa using hidx, by rw [hname_pres index hidx]; exact hname⟩)
      have happ : pre ++ [ch] ++ rest2 = pre ++ ch :: rest2 := by
        simp
      rw [happ] at hmain
      exact hmain

/-- Correctness of `removeDuplicates` against the whole roster: every output
entry is the `mergeChannel` fold of its duplicate group, names are pairwise
distinct, and the output names are exactly the input names. -/
theorem removeDuplicates_spec (channels : List Channel) :
    (∀ i (h : i < (removeDuplicates channels).length),
        mergeList (filterName channels ((removeDuplicates channels)[i]).name)
          = some (removeDuplicates channels)[i]) ∧
    (∀ i j (hi : i < (removeDuplicates channels).length)
        (hj : j < (removeDuplicates channels).length),
        ((removeDuplicates channels)[i]).name = ((removeDuplicates channels)[j]).name → i = j) ∧
    (∀ i (h : i < (removeDuplicates channels).length),
        ∃ ch ∈ channels, ch.name = ((removeDuplicates channels)[i]).name) ∧
    (∀ ch ∈ channels, ∃ i, ∃ h : i < (removeDuplicates channels).length,
        ((removeDuplicates channels)[i]).name = ch.name) := by
  have h := removeDuplicatesAux_spec channels [] [] []
    (by intro i h; simp at h)
    (by intro i j hi hj; simp at hi)
    (by intro n i hlook; simp [lookupSeen] at hlook)
    (by intro ch hc; simp at hc)
    (by intro i h; simp at h)
    (by intro ch hc; simp at hc)
  simpa [removeDuplicates] using h

/-- Specification predicate for claim C4: deduplication leaves pairwise
distinct names covering every loaded name, and each field of a merged record
is the first non-null value for that field across its duplicate group in
file order. -/
def DedupFirstNonNull (channels : List Channel) : Prop :=
  (∀ i j (hi : i < (removeDuplicates channels).length)
      (hj : j < (removeDuplicates channels).length),
      ((removeDuplicates channels)[i]).name = ((removeDuplicates channels)[j]).name → i = j) ∧
  (∀ ch ∈ channels, ∃ i, ∃ h : i < (removeDuplicates channels).length,
      ((removeDuplicates channels)[i]).name = ch.name) ∧
  (∀ c ∈ removeDuplicates channels,
      (∃ ch ∈ channels, ch.name = c.name) ∧
      c.rank = firstSome ((filterName channels c.name).map Channel.rank) ∧
      c.last_download = firstSome ((filterName channels c.name).map Channel.last_download) ∧
      c.last_complete = firstSome ((filterName channels c.name).map Channel.last_complete) ∧
      c.last_attempt = firstSome ((filterName channels c.name).map Channel.last_attempt) ∧
      c.last_error = firstSome ((filterName channels c.name).map Channel.last_error) ∧
      c.last_error_message
        = firstSome ((filterName channels c.name).map Channel.last_error_message) ∧
      c.last_resolution
        = firstSome ((filterName channels c.name).map Channel.last_resolution) ∧
      c.last_bitrate = firstSome ((filterName channels c.name).map Channel.last_bitrate))

/-- C4 (confirmed): for every loaded roster — in which every `rank` is
non-null, since `Channel.__post_init__` would have raised `ValueError` on a
null rank during load — deduplication leaves exactly one record per name and
every field of the merged record, rank included, is the first non-null value
for that field across the duplicates in file order, the first occurrence
winning ties. -/
theorem c4_dedup_first_nonnull (channels : List Channel)
    (hrank : ∀ ch ∈ channels, (ch.rank).isSome) :
    DedupFirstNonNull channels := by
  obtain ⟨h1, h2, h3, h4⟩ := removeDuplicates_spec channels
  refine ⟨h2, h4, ?_⟩
  intro c hc
  obtain ⟨i, h, hget⟩ := List.mem_iff_getElem.mp hc
  subst hget
  have hmerge := h1 i h
  have hmem := h3 i h
  set c := (removeDuplicates channels)[i] with hc_def
  match hfil : filterName channels c.name with
  | [] => rw [hfil] at hmerge; simp [mergeList] at hmerge
  | d :: ds =>
    rw [hfil] at hmerge
    simp only [mergeList, Option.some_inj] at hmerge
    have hd_mem : d ∈ channels := by
      have hmemf : d ∈ filterName channels c.name := by
        rw [hfil]; exact List.mem_cons_self d ds
      simp only [filterName] at hmemf
      exact List.mem_of_mem_filter hmemf
    obtain ⟨r, hr⟩ := Option.isSome_iff_exists.mp (hrank d hd_mem)
    refine ⟨hmem, ?_, ?_, ?_, ?_, ?_, ?_, ?_, ?_⟩
    · have hcr : c.rank = d.rank := by rw [← hmerge, foldl_merge_rank]
      rw [hcr, hr]
      simp [firstSome, keepFirst, hr]
    · rw [← hmerge]
      exact foldl_merge_field Channel.last_download (fun a b => rfl) d ds
    · rw [← hmerge]
      exact foldl_merge_field Channel.last_complete (fun a b => rfl) d ds
    · rw [← hmerge]
      exact foldl_merge_field Channel.last_attempt (fun a b => rfl) d ds
    · rw [← hmerge]
      exact foldl_merge_field Channel.last_error (fun a b => rfl) d ds
    · rw [← hmerge]
      exact foldl_merge_field Channel.last_error_message (fun a b => rfl) d ds
    · rw [← hmerge]
      exact foldl_merge_field Channel.last_resolution (fun a b => rfl) d ds
    · rw [← hmerge]
      exact foldl_merge_field Channel.last_bitrate (fun a b => rfl) d ds

/-- Concrete roster used to witness C4: `"alpha"` occurs twice with
complementary null fields, `"beta"` once. -/
def c4Roster : List Channel :=
  [ { name := "alpha", rank := some 1, last_download := none,
      last_complete := some ⟨2026, 10, 11, 8, 0, 0⟩, last_attempt := none,
      last_error := none, last_error_message := none,
      last_resolution := none, last_bitrate := some "4321" },
    { name := "alpha", rank := some 2,
      last_download := some ⟨2026, 10, 10, 7, 0, 0⟩, last_complete := none,
      last_attempt := none, last_error := none,
      last_error_message := some "timeout", last_resolution := some "1920x1080",
      last_bitrate := some "999" },
    { name := "beta", rank := some 5, last_download := none,
      last_complete := none, last_attempt := none, last_error := none,
      last_error_message := none, last_resolution := none,
      last_bitrate := none } ]

/-- Witness for C4 at the concrete roster `c4Roster`. -/
theorem c4_dedup_first_nonnull_witness : DedupFirstNonNull c4Roster :=
  c4_dedup_first_nonnull c4Roster (by decide)

/-! ## Scheduler: `Channels.__next_channel` and the slot pool (`cbt/slot.py`,
`cbt/channels.py`) -/

/-- Slot state visible to the scheduler: the busy flag written by
`Slot.process` / the worker's `finally`, and `self.__active_channel`, which
`Slot.process` sets and nothing ever clears. -/
structure SlotState where
  busy : Bool
  activeChannel : Option Channel
deriving DecidableEq, Repr

/-- Embedding of `Slot.get_name`: the active channel's name, or `""` when no
channel was ever assigned. -/
def slotGetName (s : SlotState) : String :=
  match s.activeChannel with
  | some c => c.name
  | none => ""

/-- Embedding of `Slot.check_name`. -/
def checkName (s : SlotState) (n : String) : Bool :=
  n == slotGetName s

/-- Embedding of `Slot.process`: mark the slot busy and install the channel
as its active (and waiting) channel. -/
def slotProcess (ch : Channel) : SlotState :=
  { busy := true, activeChannel := some ch }

/-- Condition of the date-skip `while` loop in `Channels.__next_channel`:
`isinstance(ch.last_complete, datetime) and util.same_date(ch.last_complete)`
(after `__post_init__`, `last_complete` is a `datetime` or `None`). -/
def completedToday (ch : Channel) (now : DateTime) : Bool :=
  match ch.last_complete with
  | some d => sameDate d now
  | none => false

/-- The date-skip `while` loop of `__next_channel`, advancing the cursor
modulo the roster length past channels already completed today. The fuel
models the unbounded `while`; `none` means the loop has not exited within
`fuel` iterations (or the cursor was out of range, which the call sites
never produce). -/
def skipDate (channels : List Channel) (now : DateTime) : Nat → Nat → Option Nat
  | 0, _ => none
  | fuel + 1, idx =>
    match channels[idx]? with
    | none => none
    | some ch =>
      if completedToday ch now then
        skipDate channels now fuel ((idx + 1) % channels.length)
      else some idx

/-- Outcome of one `__next_channel` call: a candidate index and channel, the
interpreter's `RecursionError` (stack budget exhausted), or failure to
terminate at all (the date-skip loop never exits). -/
inductive NextResult where
  | found (index : Nat) (ch : Channel)
  | recursionError
  | diverge
deriving DecidableEq, Repr

/-- The `for slot in slots` scan inside `__next_channel`: on a name
collision the result of the recursive `__next_channel` call (`recurse`, the
call at one less remaining stack depth) replaces the current candidate and
the scan continues with the remaining slots; a raised error propagates out. -/
def slotScan (channels : List Channel) (recurse : Nat → NextResult) :
    List SlotState → Nat → Channel → NextResult
  | [], idx, ch => .found idx ch
  | s :: rest, idx, ch =>
    if checkName s ch.name then
      match recurse ((idx + 1) % channels.length) with
      | .found i c => slotScan channels recurse rest i c
      | e => e
    else slotScan channels recurse rest idx ch

/-- Embedding of `Channels.__next_channel`. `depth` is the remaining Python
stack budget: the interpreter raises `RecursionError` when it is exhausted.
`skipFuel` bounds the date-skip `while` loop, `diverge` meaning it never
exits. The source's `recursions` counter only gates a backoff `time.sleep`
(no semantic effect) and `self.__running` is `True` throughout a scheduling
pass, so neither is modelled. -/
def nextChannel (channels : List Channel) (slots : List SlotState) (now : DateTime)
    (skipFuel : Nat) : Nat → Nat → NextResult
  | 0, _ => .recursionError
  | d + 1, idx =>
    match skipDate channels now skipFuel idx with
    | none => .diverge
    | some idx1 =>
      match channels[idx1]? with
      | none => .diverge
      | some ch =>
        slotScan channels (nextChannel channels slots now skipFuel d) slots idx1 ch

/-- Index `i` holds a channel that is not marked completed today. -/
def eligibleAt (channels : List Channel) (now : DateTime) (i : Nat) : Prop :=
  ∃ ch, channels[i]? = some ch ∧ completedToday ch now = false

theorem skipDate_all_completed (channels : List Channel) (now : DateTime)
    (hall : ∀ ch ∈ channels, completedToday ch now = true) :
    ∀ fuel idx, skipDate channels now fuel idx = none := by
  intro fuel
  induction fuel with
  | zero => intro idx; rfl
  | succ fuel ih =>
    intro idx
    cases h : channels[idx]? with
    | none => simp [skipDate, h]
    | some ch =>
      simp only [skipDate, h]
      rw [if_pos (hall ch (List.getElem?_mem h))]
      exact ih ((idx + 1) % channels.length)

theorem skipDate_succeeds (channels : List Channel) (now : DateTime) :
    ∀ (k fuel idx : Nat), idx < channels.length → k < fuel →
    eligibleAt channels now ((idx + k) % channels.length) →
    ∃ j, skipDate channels now fuel idx = some j ∧ eligibleAt channels now j := by
  intro k
  induction k with
  | zero =>
    intro fuel idx hidx hfuel helig
    rw [Nat.add_zero, Nat.mod_eq_of_lt hidx] at helig
    obtain ⟨ch, hget, hcomp⟩ := helig
    cases fuel with
    | zero => omega
    | succ f =>
      refine ⟨idx, ?_, ⟨ch, hget, hcomp⟩⟩
      simp only [skipDate, hget]
      rw [if_neg (by simp [hcomp])]
  | succ k ih =>
    intro fuel idx hidx hfuel helig
    cases fuel with
    | zero => omega
    | succ f =>
      obtain ⟨ch0, hch0⟩ : ∃ ch0, channels[idx]? = some ch0 :=
        ⟨channels[idx], List.getElem?_eq_getElem hidx⟩
      by_cases hcomp : completedToday ch0 now = true
      · have hnext : (idx + 1) % channels.length < channels.length :=
          Nat.mod_lt _ (by omega)
        have helig2 :
            eligibleAt channels now (((idx + 1) % channels.length + k) % channels.length) := by
          have heq : ((idx + 1) % channels.length + k) % channels.length
              = (idx + (k + 1)) % channels.length := by
            rw [Nat.mod_add_mod]
            congr 1
            omega
          rw [heq]; exact helig
        obtain ⟨j, hj, helJ⟩ := ih f ((idx + 1) % channels.length) hnext (by omega) helig2
        refine ⟨j, ?_, helJ⟩
        simp only [skipDate, hch0]
        rw [if_pos hcomp]
        exact hj
      · refine ⟨idx, ?_, ⟨ch0, hch0, by simpa using hcomp⟩⟩
        simp only [skipDate, hch0]
        rw [if_neg hcomp]

theorem skipDate_of_exists (channels : List Channel) (now : DateTime)
    (hx : ∃ j, eligibleAt channels now j) (fuel idx : Nat)
    (hidx : idx < channels.length) (hfuel : channels.length ≤ fuel) :
    ∃ j, skipDate channels now fuel idx = some j ∧ eligibleAt channels now j := by
  obtain ⟨j, helig⟩ := hx
  have hj : j < channels.length := by
    obtain ⟨ch, hch, _⟩ := helig
    exact (List.getElem?_eq_some.mp hch).1
  have hn : 0 < channels.length := by omega
  refine skipDate_succeeds channels now ((j + channels.length - idx) % channels.length)
    fuel idx hidx (by calc (j + channels.length - idx) % channels.length
          < channels.length := Nat.mod_lt _ hn
        _ ≤ fuel := hfuel) ?_
  have heq : (idx + (j + channels.length - idx) % channels.length) % channels.length = j := by
    rw [Nat.add_mod_mod]
    have h2 : idx + (j + channels.length - idx) = j + channels.length := by omega
    rw [h2, Nat.add_mod_right, Nat.mod_eq_of_lt hj]
  rw [heq]
  exact helig

theorem slotScan_found_no_collision (channels : List Channel) (slots : List SlotState)
    (recurse : Nat → NextResult)
    (hrec : ∀ idx i c, recurse ((idx + 1) % channels.length) = .found i c →
      ∀ s ∈ slots, checkName s c.name = false) :
    ∀ (rem : List SlotState) (idx : Nat) (ch : Channel) (i : Nat) (c : Channel),
    slotScan channels recurse rem idx ch = .found i c →
    (∀ s ∈ slots, checkName s c.name = false) ∨
      (c = ch ∧ ∀ s ∈ rem, checkName s ch.name = false) := by
  intro rem
  induction rem with
  | nil =>
    intro idx ch i c hfound
    simp only [slotScan] at hfound
    cases hfound
    exact Or.inr ⟨rfl, by simp⟩
  | cons s rest ih =>
    intro idx ch i c hfound
    simp only [slotScan] at hfound
    by_cases hcheck : checkName s ch.name = true
    · rw [if_pos hcheck] at hfound
      match hr : recurse ((idx + 1) % channels.length) with
      | .found i2 c2 =>
        rw [hr] at hfound
        have hall := hrec idx i2 c2 hr
        rcases ih _ _ _ _ hfound with h | ⟨heq, _⟩
        · exact Or.inl h
        · exact Or.inl (heq ▸ hall)
      | .recursionError => rw [hr] at hfound; simp at hfound
      | .diverge => rw [hr] at hfound; simp at hfound
    · rw [if_neg hcheck] at hfound
      rcases ih _ _ _ _ hfound with h | ⟨heq, hrest⟩
      · exact Or.inl h
      · refine Or.inr ⟨heq, ?_⟩
        intro t ht
        rcases List.mem_cons.mp ht with rfl | ht
        · simpa using hcheck
        · exact hrest t ht

theorem nextChannel_found_no_collision (channels : List Channel) (slots : List SlotState)
    (now : DateTime) (skipFuel : Nat) :
    ∀ (depth idx i : Nat) (c : Channel),
    nextChannel channels slots now skipFuel depth idx = .found i c →
    ∀ s ∈ slots, checkName s c.name = false := by
  intro depth
  induction depth with
  | zero => intro idx i c h; simp [nextChannel] at h
  | succ d ih =>
    intro idx i c h
    simp only [nextChannel] at h
    match hs : skipDate channels now skipFuel idx with
    | none => simp only [hs] at h; exact absurd h (by simp)
    | some idx1 =>
      simp only [hs] at h
      match hg : channels[idx1]? with
      | none => simp only [hg] at h; exact absurd h (by simp)
      | some ch =>
        simp only [hg] at h
        rcases slotScan_found_no_collision channels slots
            (nextChannel channels slots now skipFuel d)
            (fun idx2 i2 c2 hf => ih ((idx2 + 1) % channels.length) i2 c2 hf)
            slots idx1 ch i c h with h1 | ⟨heq, h2⟩
        · exact h1
        · exact fun s hs2 => heq ▸ h2 s hs2

theorem slotScan_ne_diverge (channels : List Channel) (recurse : Nat → NextResult)
    (hrec : ∀ idx, recurse ((idx + 1) % channels.length) ≠ .diverge) :
    ∀ (rem : List SlotState) (idx : Nat) (ch : Channel),
    slotScan channels recurse rem idx ch ≠ .diverge := by
  intro rem
  induction rem with
  | nil => intro idx ch h; simp [slotScan] at h
  | cons s rest ih =>
    intro idx ch
    simp only [slotScan]
    by_cases hcheck : checkName s ch.name = true
    · rw [if_pos hcheck]
      match hr : recurse ((idx + 1) % channels.length) with
      | .found i2 c2 => exact ih i2 c2
      | .recursionError => simp
      | .diverge => exact absurd hr (hrec idx)
    · rw [if_neg hcheck]
      exact ih idx ch

theorem nextChannel_ne_diverge (channels : List Channel) (slots : List SlotState)
    (now : DateTime) (skipFuel : Nat)
    (hx : ∃ j, eligibleAt channels now j) (hfuel : channels.length ≤ skipFuel) :
    ∀ (depth idx : Nat), idx < channels.length →
    nextChannel channels slots now skipFuel depth idx ≠ .diverge := by
  intro depth
  induction depth with
  | zero => intro idx _ h; simp [nextChannel] at h
  | succ d ih =>
    intro idx hidx
    have hpos : 0 < channels.length := by omega
    simp only [nextChannel]
    obtain ⟨j, hj, helig⟩ := skipDate_of_exists channels now hx skipFuel idx hidx hfuel
    obtain ⟨ch, hch, _⟩ := helig
    simp only [hj, hch]
    exact slotScan_ne_diverge channels (nextChannel channels slots now skipFuel d)
      (fun idx2 => ih ((idx2 + 1) % channels.length) (Nat.mod_lt _ hpos))
      slots j ch

/-- Pairwise distinctness of the active-channel names over the slots that
hold an assignment. -/
def AssignedNamesDistinct (slots : List SlotState) : Prop :=
  ∀ i j (hi : i < slots.length) (hj : j < slots.length), i ≠ j →
  ∀ ci cj, (slots[i]).activeChannel = some ci → (slots[j]).activeChannel = some cj →
  ci.name ≠ cj.name

/-- C1 (confirmed): when the scheduler pass resolves a candidate through
`__next_channel` (including candidates produced by recursive calls made
partway through the scan over slots) and assigns it to slot `k` via
`Slot.process`, the chosen channel's name differs from every slot's active
channel name, and the no-two-slots-share-a-name invariant is preserved. -/
theorem c1_no_concurrent_duplicate (channels : List Channel) (slots : List SlotState)
    (now : DateTime) (skipFuel depth idx k : Nat) (hk : k < slots.length)
    (hinv : AssignedNamesDistinct slots) (i : Nat) (c : Channel)
    (hfound : nextChannel channels slots now skipFuel depth idx = .found i c) :
    (∀ s ∈ slots, checkName s c.name = false) ∧
    AssignedNamesDistinct (slots.set k (slotProcess c)) := by
  have hall := nextChannel_found_no_collision channels slots now skipFuel depth idx i c hfound
  have hname_free : ∀ s ∈ slots, ∀ cs, s.activeChannel = some cs → c.name ≠ cs.name := by
    intro s hs cs hcs
    have hch := hall s hs
    simp only [checkName, slotGetName, hcs] at hch
    exact beq_eq_false_iff_ne.mp hch
  refine ⟨hall, ?_⟩
  intro a b ha hb hab ca cb hca hcb
  rw [List.length_set] at ha hb
  by_cases hak : a = k <;> by_cases hbk : b = k
  · omega
  · subst hak
    have hga : getElem (slots.set a (slotProcess c)) a (by simpa using ha) = slotProcess c := by
      rw [List.getElem_set, if_pos rfl]
    have hgb : getElem (slots.set a (slotProcess c)) b (by simpa using hb) = slots[b] := by
      rw [List.getElem_set, if_neg (fun hh => hbk hh.symm)]
    rw [hga] at hca
    rw [hgb] at hcb
    simp only [slotProcess, Option.some_inj] at hca
    subst hca
    have hb2 : b < slots.length := by simpa using hb
    have hmemb : slots[b] ∈ slots := List.getElem_mem hb2
    exact hname_free slots[b] hmemb cb hcb
  · subst hbk
    have hga : getElem (slots.set b (slotProcess c)) a (by simpa using ha) = slots[a] := by
      rw [List.getElem_set, if_neg (fun hh => hak hh.symm)]
    have hgb : getElem (slots.set b (slotProcess c)) b (by simpa using hb) = slotProcess c := by
      rw [List.getElem_set, if_pos rfl]
    rw [hga] at hca
    rw [hgb] at hcb
    simp only [slotProcess, Option.some_inj] at hcb
    subst hcb
    have ha2 : a < slots.length := by simpa using ha
    have hmema : slots[a] ∈ slots := List.getElem_mem ha2
    exact fun hh => hname_free slots[a] hmema ca hca hh.symm
  · have hga : getElem (slots.set k (slotProcess c)) a (by simpa using ha) = slots[a] := by
      rw [List.getElem_set, if_neg (fun hh => hak hh.symm)]
    have hgb : getElem (slots.set k (slotProcess c)) b (by simpa using hb) = slots[b] := by
      rw [List.getElem_set, if_neg (fun hh => hbk hh.symm)]
    rw [hga] at hca
    rw [hgb] at hcb
    exact hinv a b ha hb hab ca cb hca hcb

/-- Sufficient decidable criterion for `AssignedNamesDistinct`: the
slot-name projections are pairwise distinct. -/
theorem assignedNamesDistinct_of_nodup (slots : List SlotState)
    (h : (slots.map slotGetName).Nodup) : AssignedNamesDistinct slots := by
  intro i j hi hj hij ci cj hci hcj
  have hne : slotGetName slots[i] ≠ slotGetName slots[j] := by
    intro heq
    apply hij
    have hmap : (slots.map slotGetName).get ⟨i, by simpa using hi⟩
        = (slots.map slotGetName).get ⟨j, by simpa using hj⟩ := by
      simp only [List.get_eq_getElem, List.getElem_map]
      exact heq
    have hfin := (List.Nodup.get_inj_iff h).mp hmap
    simpa using hfin
  simp only [slotGetName, hci, hcj] at hne
  exact hne

/-- Concrete scheduling scene used to witness C1: two channels, a busy slot
holding `"east"`, an idle slot that still holds the stale name `"west"`. -/
def c1Channels : List Channel :=
  [ ⟨"east", some 0, none, none, none, none, none, none, none⟩,
    ⟨"west", some 1, none, none, none, none, none, none, none⟩,
    ⟨"north", some 2, none, none, none, none, none, none, none⟩ ]

/-- Slot pool for the C1 witness. -/
def c1Slots : List SlotState :=
  [ { busy := true,
      activeChannel := some ⟨"east", some 0, none, none, none, none, none, none, none⟩ },
    { busy := false,
      activeChannel := some ⟨"west", some 1, none, none, none, none, none, none, none⟩ } ]

/-- Witness for C1: at the concrete scene the resolved candidate is
`"north"` (skipping both held names) and assigning it to slot 1 keeps all
active names distinct. -/
theorem c1_no_concurrent_duplicate_witness :
    (∀ s ∈ c1Slots,
      checkName s (⟨"north", some 2, none, none, none, none, none, none, none⟩ : Channel).name
        = false) ∧
    AssignedNamesDistinct (c1Slots.set 1
      (slotProcess ⟨"north", some 2, none, none, none, none, none, none, none⟩)) :=
  c1_no_concurrent_duplicate c1Channels c1Slots ⟨2026, 10, 12, 9, 0, 0⟩ 8 16 0 1
    (by decide)
    (assignedNamesDistinct_of_nodup c1Slots (by decide))
    2 ⟨"north", some 2, none, none, none, none, none, none, none⟩
    (by decide)

/-- Specification predicate for C6: one `__next_channel` call either returns
a candidate or raises the fatal `RecursionError` guard — it does not fail to
terminate. -/
def ResolutionTerminates (channels : List Channel) (slots : List SlotState)
    (now : DateTime) (skipFuel depth idx : Nat) : Prop :=
  nextChannel channels slots now skipFuel depth idx = .recursionError ∨
  ∃ i c, nextChannel channels slots now skipFuel depth idx = .found i c

/-- C6 (amended): provided at least one roster channel is not completed
today, a `__next_channel` call from a valid cursor either returns an
eligible channel within the recursion budget or raises the fatal
`RecursionError` guard — it never loops without terminating. The original
claim's "in particular also when every channel's last_complete falls on the
current calendar date" is false: in that case the date-skip `while` loop
never exits (see the counterexample). -/
theorem c6_resolution_bounded (channels : List Channel) (slots : List SlotState)
    (now : DateTime) (skipFuel depth idx : Nat)
    (hx : ∃ j, eligibleAt channels now j) (hidx : idx < channels.length)
    (hfuel : channels.length ≤ skipFuel) :
    ResolutionTerminates channels slots now skipFuel depth idx := by
  have hnd := nextChannel_ne_diverge channels slots now skipFuel hx hfuel depth idx hidx
  match hr : nextChannel channels slots now skipFuel depth idx with
  | .found i c => exact Or.inr ⟨i, c, hr⟩
  | .recursionError => exact Or.inl hr
  | .diverge => exact absurd hr hnd

/-- Roster channel for the C6 witness. -/
def c6EligibleChannel : Channel :=
  ⟨"delta", some 0, none, none, none, none, none, none, none⟩

/-- Witness for C6 at a singleton eligible roster. -/
theorem c6_resolution_bounded_witness :
    ResolutionTerminates [c6EligibleChannel] [] ⟨2026, 10, 12, 9, 0, 0⟩ 1 1 0 :=
  c6_resolution_bounded [c6EligibleChannel] [] ⟨2026, 10, 12, 9, 0, 0⟩ 1 1 0
    ⟨0, c6EligibleChannel, by decide, by decide⟩ (by decide) (by decide)

/-- Wall-clock instant for the C6 counterexample. -/
def c6Now : DateTime := ⟨2026, 10, 12, 9, 0, 0⟩

/-- Roster whose single channel is already completed on the current date. -/
def c6Roster : List Channel :=
  [{ name := "gamma", rank := some 0, last_download := none,
     last_complete := some ⟨2026, 10, 12, 7, 30, 0⟩, last_attempt := none,
     last_error := none, last_error_message := none, last_resolution := none,
     last_bitrate := none }]

/-- The date-skip `while` loop of `__next_channel` never exits when every
channel's `last_complete` falls on the current calendar date: for every loop
fuel and every positive stack budget the call neither returns nor raises. -/
def AllCompletedLoopsForever : Prop :=
  ∀ skipFuel depth,
    nextChannel c6Roster [] c6Now skipFuel (depth + 1) 0 = NextResult.diverge

/-- Counterexample to C6 as stated: on `c6Roster` (every `last_complete` on
today's date) the resolution loops without terminating — it neither returns
a channel nor raises the `RecursionError` guard. -/
theorem c6_counterexample_all_completed : AllCompletedLoopsForever := by
  intro skipFuel depth
  simp only [nextChannel]
  rw [skipDate_all_completed c6Roster c6Now (by decide) skipFuel 0]

/-! ## Bus envelopes and the per-slot worker cycle (`cbt/slot.py`,
`cbt/processor.py`) -/

/-- Embedding of the `CurrentSlot` dataclass (`cbt/slot.py`): the
`SlotStatus` record a slot publishes on its status stream. `has_error` is
the tri-state `bool | None`. -/
structure CurrentSlot where
  index : Nat
  channel_name : String
  channel_rank : Int
  previous_download : Option DateTime
  is_downloading : Bool
  is_active : Bool
  is_complete : Bool
  has_error : Option Bool
  status_message : String × String × String
  sequence : Int
deriving DecidableEq, Repr

/-- Embedding of the `CurrentChannel` dataclass (`cbt/display.py`),
restricted to the fields read or written by the embedded code paths (the
remaining yt-dlp metadata fields are carried by the source but never
inspected by it). `elapsed` is modelled in whole seconds. -/
structure CurrentChannel where
  id : String
  original_url : String
  width : Nat
  height : Nat
  tbr : Nat
  status : String
  processor : String
  filename : String
  elapsed : Nat
  downloaded_bytes : Nat
deriving DecidableEq, Repr

/-- Embedding of the `FileInfo` dataclass (`cbt/slot.py`); `slot_index` may
be `-1` when the monitor reports an unattributed process. -/
structure FileInfo where
  slot_index : Int
  filename : String
  filesize : Nat
  expected : Nat
deriving DecidableEq, Repr

/-- Embedding of the `StatusBarMessage` dataclass (`cbt/display.py`). -/
structure StatusBarMessage where
  important : String
  message : String
deriving DecidableEq, Repr

/-- Payloads observed on the shared queue, mirroring the runtime types the
consumers dispatch on: `isinstance` checks for the dataclasses, equality
checks against the string sentinels (`recording`, `unresponsive` and
`finished` stand for `Config.REC = "RECORDING"`, `Config.UNR =
"UNRESPONSIVE"` and `Config.FIN = "FINISHED"`), plain-int kill requests, and
Python `None`. -/
inductive Payload where
  | channel (c : Channel)
  | slotStatus (s : CurrentSlot)
  | currentChannel (c : CurrentChannel)
  | fileInfo (f : FileInfo)
  | statusBar (m : StatusBarMessage)
  | healthBar (bar : List String)
  | killRequest (slotIndex : Nat)
  | recording
  | unresponsive
  | finished
  | pynone
deriving DecidableEq, Repr

/-- Bus envelope `(destination, payload)`: destination is a slot index `≥ 0`
or one of the three reserved negative sentinels. -/
structure Envelope where
  dest : Int
  payload : Payload
deriving DecidableEq, Repr

/-- Destination sentinel `Config.MSG_DISP`. -/
def MSG_DISP : Int := -1

/-- Destination sentinel `Config.MSG_SLOT`. -/
def MSG_SLOT : Int := -2

/-- Destination sentinel `Config.MSG_CHAN`. -/
def MSG_CHAN : Int := -3

/-- Python exception classes that escape the embedded code. Releasing a
`threading.RLock` that the calling thread does not own raises
`RuntimeError`. -/
inductive PyError where
  | runtimeError
deriving DecidableEq, Repr

/-- Outcome of the external blocking `YoutubeDL.download` call made inside
`Processor.download`: a normal return recorded by its Python truthiness, the
`RejectedVideoReached` raised from the progress hook, or any other exception
(with the message the handler formats). -/
inductive FetchOutcome where
  | ok (truthy : Bool)
  | rejected (msg : String)
  | exn (msg : String)
deriving DecidableEq, Repr

/-- Result of `Processor.download`: normal return value `(has_error,
(source, channel, message))` or an escaping exception, together with the
envelopes it published and whether the worker thread still owns the shared
postprocessing lock afterwards. -/
structure DownloadResult where
  result : Except PyError (Bool × (String × String × String))
  published : List Envelope
  lockHeldAfter : Bool
deriving Repr

/-- Embedding of `Processor.download` (`cbt/processor.py`). `current` is
`self.__current` (set by a successful `extract`); `fetch` is the outcome of
the blocking fetch; `hookPublished` are the envelopes the progress hooks
published during the fetch; `lockHeld` is whether this worker thread owns
the shared postprocessing `RLock` when the `finally` clause runs (the hook's
acquire happens during the fetch; when `current` is `None` the whole
`try/finally` is skipped). Releasing an un-owned `RLock` raises
`RuntimeError`, which the `except (AssertionError, ValueError)` clauses do
not catch, so it escapes. -/
def processorDownload (slotIndex : Nat) (current : Option CurrentChannel)
    (fetch : FetchOutcome) (hookPublished : List Envelope) (lockHeld : Bool) :
    DownloadResult :=
  match current with
  | none => { result := .ok (true, ("", "", "")), published := [], lockHeldAfter := lockHeld }
  | some cur =>
    let hasError : Bool :=
      match fetch with
      | .ok t => !t
      | .rejected _ => true
      | .exn _ => true
    let respMsg : String :=
      match fetch with
      | .ok _ => ""
      | .rejected m => m
      | .exn m => m
    let releasing : Envelope :=
      ⟨MSG_DISP, .statusBar ⟨"Notice", "Releasing lock (Slot " ++ toString (slotIndex + 1) ++ ")"⟩⟩
    let released : Envelope :=
      ⟨MSG_DISP, .statusBar ⟨"Notice", "Released lock (Slot " ++ toString (slotIndex + 1) ++ ")"⟩⟩
    let headPub : List Envelope := ⟨(slotIndex : Int), .currentChannel cur⟩ :: hookPublished
    if lockHeld then
      { result := .ok (hasError, ("", "", respMsg)),
        published := headPub ++ [releasing, released],
        lockHeldAfter := false }
    else
      { result := .error .runtimeError,
        published := headPub ++ [releasing],
        lockHeldAfter := false }

/-- Data passed by yt-dlp to progress and postprocessor hooks, restricted to
the keys `__common_hook` reads (`elapsed` in whole seconds; the `info_dict`
keys that feed the modelled `CurrentChannel` fields). -/
structure HookData where
  status : String
  postprocessor : Option String
  filename : String
  elapsed : Nat
  downloaded_bytes : Nat
  info_id : String
  info_original_url : String
  info_width : Nat
  info_height : Nat
  info_tbr : Nat
deriving DecidableEq, Repr

/-- Result of one `__common_hook` invocation: the new `self.__current`,
whether `RejectedVideoReached` was raised, the lock ownership afterwards,
and the envelopes published. -/
structure HookResult where
  current : CurrentChannel
  raised : Bool
  lockHeldAfter : Bool
  published : List Envelope
deriving DecidableEq, Repr

/-- Embedding of `Processor.__common_hook` (`cbt/processor.py`): rebuild
`self.__current` from the hook data (`processor` is `postprocessor or
"progress"`), publish it on the slot's status stream, recompute `tbr` from
the observed rate, and only in the finalize phase — a progress hook carrying
status `"finished"` — either reject a too-short fetch or acquire the shared
postprocessing permit (never at fetch start). -/
def commonHook (slotIndex : Nat) (minimumDuration : Nat) (data : HookData)
    (lockHeld : Bool) : HookResult :=
  let cur0 : CurrentChannel :=
    { id := data.info_id
      original_url := data.info_original_url
      width := data.info_width
      height := data.info_height
      tbr := data.info_tbr
      status := data.status
      processor := match data.postprocessor with | some p => p | none => "progress"
      filename := data.filename
      elapsed := data.elapsed
      downloaded_bytes := data.downloaded_bytes }
  let pub0 : Envelope := ⟨(slotIndex : Int), .currentChannel cur0⟩
  let cur : CurrentChannel :=
    { cur0 with tbr :=
        if cur0.elapsed ≠ 0 ∧ cur0.downloaded_bytes ≠ 0 then
          cur0.downloaded_bytes * 8 / cur0.elapsed / 1024
        else cur0.tbr }
  if cur.processor = "progress" ∧ cur.status = "finished" then
    if cur.elapsed < minimumDuration then
      { current := cur, raised := true, lockHeldAfter := lockHeld, published := [pub0] }
    else
      { current := cur, raised := false, lockHeldAfter := true,
        published := [pub0,
          ⟨MSG_DISP, .statusBar
            ⟨"Notice", "Acquiring lock (Slot " ++ toString (slotIndex + 1) ++ ")"⟩⟩,
          ⟨MSG_DISP, .statusBar
            ⟨"Notice", "Acquired lock (Slot " ++ toString (slotIndex + 1) ++ ")"⟩⟩] }
  else
    { current := cur, raised := false, lockHeldAfter := lockHeld, published := [pub0] }

/-- Embedding of `Processor.get_resolution`. -/
def getResolution (current : Option CurrentChannel) : String :=
  match current with
  | some c => toString c.width ++ "x" ++ toString c.height
  | none => ""

/-- Embedding of `Processor.get_bitrate`. -/
def getBitrate (current : Option CurrentChannel) : String :=
  match current with
  | some c => toString c.tbr
  | none => ""

/-- Outcome of one worker cycle: the channel record after the cycle's
mutations, the envelopes published in order, the slot's new `__sequence`,
and the slot state (the worker's `finally` clears `__busy`; nothing in the
worker loop ever writes `__active_channel`). -/
structure WorkerOutcome where
  channel : Channel
  published : List Envelope
  sequence : Int
  slot : SlotState
deriving DecidableEq, Repr

/-- The `CurrentSlot` record built at the top of a `Slot.__worker_loop`
iteration (before `__sequence` is incremented): downloading, active, not
complete, tri-state error unknown, stamped with the current `__sequence`.
Its two publishes in a cycle both carry this pre-increment sequence. The
worker-cycle external inputs are made explicit in `workerCycle` below:
`now` is the wall clock, `extractOk` the result of `Processor.extract`,
`current` the processor's `self.__current` after extraction,
`getErrorResult` the value of `Processor.get_error()` (driven by the yt-dlp
logger), and `fetch`, `hookPublished`, `lockHeld` the fetch outcome fed to
`Processor.download`. -/
def initialSlotStatus (slotIndex : Nat) (channel : Channel) (seq : Int) : CurrentSlot :=
  { index := slotIndex
    channel_name := channel.name
    channel_rank := match channel.rank with | some r => r | none => 5
    previous_download := channel.last_complete
    is_downloading := true
    is_active := true
    is_complete := false
    has_error := none
    status_message := ("", "", "")
    sequence := seq }

/-- Embedding of one iteration of `Slot.__worker_loop` with a waiting
channel (`cbt/slot.py` lines 218-275), continued from `initialSlotStatus`
above (the `CurrentSlot` the loop constructs before incrementing
`__sequence`). On an escaping exception from `download()` the
`except Exception` branch publishes only an error message and the `finally`
frees the slot: the channel update, final status and FIN are skipped. -/
def workerCycle (slot : SlotState) (seq : Int) (slotIndex : Nat) (channel : Channel)
    (now : DateTime) (extractOk : Bool) (current : Option CurrentChannel)
    (getErrorResult : Bool × (String × String × String))
    (fetch : FetchOutcome) (hookPublished : List Envelope) (lockHeld : Bool) :
    WorkerOutcome :=
  let status0 : CurrentSlot := initialSlotStatus slotIndex channel seq
  let seq1 := seq + 1
  let ch1 : Channel := { channel with last_attempt := some now }
  if extractOk then
    let ch2 : Channel := { ch1 with
      last_download := some now
      last_resolution := some (getResolution current)
      last_bitrate := some (getBitrate current) }
    let dl := processorDownload slotIndex current fetch hookPublished lockHeld
    match dl.result with
    | .error _ =>
      { channel := ch2
        published := ⟨(slotIndex : Int), .slotStatus status0⟩ :: dl.published ++
          [⟨MSG_DISP, .statusBar ⟨"Error", "cannot release un-acquired lock"⟩⟩]
        sequence := seq1
        slot := { slot with busy := false } }
    | .ok (hasErr, msg) =>
      let statusA : CurrentSlot :=
        { status0 with
          has_error := some hasErr
          status_message := msg
          is_complete := !hasErr }
      let ch3 : Channel :=
        if statusA.is_complete then
          { ch2 with
            last_complete := some now
            last_resolution := some (getResolution current)
            last_bitrate := some (getBitrate current) }
        else
          { ch2 with
            last_error := some now
            last_error_message := some msg.2.2 }
      { channel := ch3
        published := ⟨(slotIndex : Int), .slotStatus status0⟩ :: dl.published ++
          [⟨MSG_CHAN, .channel ch3⟩,
           ⟨(slotIndex : Int), .slotStatus statusA⟩,
           ⟨(slotIndex : Int), .finished⟩,
           ⟨MSG_DISP, .statusBar
             ⟨"Notice", channel.name ++ ": " ++ (if msg.2.2 = "" then "OK" else msg.2.2)⟩⟩]
        sequence := seq1
        slot := { slot with busy := false } }
  else
    let statusB : CurrentSlot :=
      { status0 with
        has_error := some getErrorResult.1
        status_message := getErrorResult.2
        is_complete := false
        is_downloading := false }
    let ch3 : Channel :=
      { ch1 with
        last_error := some now
        last_error_message := some getErrorResult.2.2.2 }
    { channel := ch3
      published :=
        [⟨MSG_CHAN, .channel ch3⟩,
         ⟨(slotIndex : Int), .slotStatus statusB⟩,
         ⟨(slotIndex : Int), .finished⟩,
         ⟨MSG_DISP, .statusBar
           ⟨"Notice", channel.name ++ ": "
             ++ (if getErrorResult.2.2.2 = "" then "OK" else getErrorResult.2.2.2)⟩⟩]
      sequence := seq1
      slot := { slot with busy := false } }

/-- Whether `Processor.download` raised instead of returning. -/
def downloadRaises (d : DownloadResult) : Bool :=
  match d.result with
  | .error _ => true
  | .ok _ => false

/-! ## C8: the postprocessing gate -/

/-- Specification predicate for C8: the permit is acquired only by the
finalize-phase hook, never at fetch start; `download()`'s cleanup always
leaves the permit un-owned; when the cleanup runs with the permit held it
returns normally, and when the permit was never acquired the release raises
`RuntimeError`, which escapes `download()`. -/
def GateDiscipline (slotIndex minDur : Nat) (data : HookData) (lockHeld : Bool)
    (cur : CurrentChannel) (fetch : FetchOutcome) (hookPub : List Envelope) : Prop :=
  (data.status ≠ "finished" →
    (commonHook slotIndex minDur data lockHeld).lockHeldAfter = lockHeld ∧
    (commonHook slotIndex minDur data lockHeld).raised = false) ∧
  (data.postprocessor = none → data.status = "finished" → minDur ≤ data.elapsed →
    (commonHook slotIndex minDur data lockHeld).lockHeldAfter = true) ∧
  ((processorDownload slotIndex (some cur) fetch hookPub true).lockHeldAfter = false ∧
    downloadRaises (processorDownload slotIndex (some cur) fetch hookPub true) = false) ∧
  ((processorDownload slotIndex (some cur) fetch hookPub false).lockHeldAfter = false ∧
    (processorDownload slotIndex (some cur) fetch hookPub false).result
      = Except.error PyError.runtimeError)

/-- C8 (amended): the postprocessing permit is acquired only when the
progress hook signals that the finalize phase has begun (status `"finished"`
in the `"progress"` phase), never at fetch start; the cleanup step releases
the permit whenever it is held, so after `download()` the slot never holds
it; but when the permit was never acquired, the unconditional release raises
`RuntimeError` — which the `except (AssertionError, ValueError)` clauses do
not suppress — and the exception escapes `download()`. -/
theorem c8_gate_discipline (slotIndex minDur : Nat) (data : HookData) (lockHeld : Bool)
    (cur : CurrentChannel) (fetch : FetchOutcome) (hookPub : List Envelope) :
    GateDiscipline slotIndex minDur data lockHeld cur fetch hookPub := by
  refine ⟨?_, ?_, ?_, ?_⟩
  · intro hne
    have hcond : ¬ ((match data.postprocessor with
        | some p => p
        | none => "progress") = "progress" ∧ data.status = "finished") := by
      intro hc
      exact hne hc.2
    simp only [commonHook]
    rw [if_neg hcond]
    simp
  · intro hpost hstat hdur
    simp only [commonHook, hpost]
    rw [if_pos ⟨trivial, hstat⟩, if_neg (by omega)]
  · refine ⟨?_, ?_⟩ <;> simp [processorDownload, downloadRaises]
  · constructor <;> simp [processorDownload]

/-- Hook data for the C8 witness: finalize-phase progress hook, duration
above the minimum. -/
def c8Data : HookData :=
  { status := "finished", postprocessor := none, filename := "f.mp4",
    elapsed := 1200, downloaded_bytes := 9000000, info_id := "vid",
    info_original_url := "u", info_width := 1920, info_height := 1080,
    info_tbr := 4500 }

/-- Extracted metadata for the C8 witness. -/
def c8Current : CurrentChannel :=
  { id := "vid", original_url := "u", width := 1920, height := 1080,
    tbr := 4500, status := "downloading", processor := "progress",
    filename := "f.mp4", elapsed := 100, downloaded_bytes := 1000 }

/-- Witness for C8 at concrete inputs. -/
theorem c8_gate_discipline_witness :
    GateDiscipline 0 900 c8Data false c8Current (FetchOutcome.ok false) [] :=
  c8_gate_discipline 0 900 c8Data false c8Current (FetchOutcome.ok false) []

/-- Fetch metadata for the C8 counterexample. -/
def c8ExnCurrent : CurrentChannel :=
  { id := "vid2", original_url := "u2", width := 1280, height := 720,
    tbr := 2500, status := "downloading", processor := "progress",
    filename := "g.mp4", elapsed := 3, downloaded_bytes := 10 }

/-- Counterexample to C8 as stated: when the fetch raises before the
finalize hook ever acquired the permit, the cleanup's release of the
un-owned `RLock` raises `RuntimeError` and the exception escapes
`download()` — contradicting "without raising an escaping exception when
the permit was never acquired". -/
theorem c8_counterexample_unacquired_release :
    (processorDownload 0 (some c8ExnCurrent) (FetchOutcome.exn "network down") [] false).result
      = Except.error PyError.runtimeError := rfl

/-! ## C3: the worker cycle's channel updates and publish sequence -/

/-- Specification predicate for C3, for one worker cycle: the slot ends
free with its active channel untouched, and the published sequence ends
with the channel-state update, the final `SlotStatus`, the terminal FIN
sentinel and the display notice — where a completed status comes with
`last_complete`/`last_resolution`/`last_bitrate` updates and a failed one
with `last_error`/`last_error_message` updates. -/
def WorkerCyclePublishes (slot : SlotState) (seq : Int) (slotIndex : Nat)
    (channel : Channel) (now : DateTime) (extractOk : Bool)
    (current : Option CurrentChannel)
    (getErrorResult : Bool × (String × String × String))
    (fetch : FetchOutcome) (hookPublished : List Envelope) (lockHeld : Bool) : Prop :=
  let out := workerCycle slot seq slotIndex channel now extractOk current
    getErrorResult fetch hookPublished lockHeld
  out.slot.busy = false ∧
  out.slot.activeChannel = slot.activeChannel ∧
  ∃ pre statusFinal notice,
    out.published = pre ++
      [⟨MSG_CHAN, .channel out.channel⟩,
       ⟨(slotIndex : Int), .slotStatus statusFinal⟩,
       ⟨(slotIndex : Int), .finished⟩,
       ⟨MSG_DISP, .statusBar notice⟩] ∧
    statusFinal.has_error ≠ none ∧
    (statusFinal.is_complete = true →
      out.channel.last_complete = some now ∧
      out.channel.last_resolution = some (getResolution current) ∧
      out.channel.last_bitrate = some (getBitrate current)) ∧
    (statusFinal.is_complete = false →
      out.channel.last_error = some now ∧
      out.channel.last_error_message = some statusFinal.status_message.2.2)

/-- C3 (amended): whenever `Processor.download` returns rather than raising
(and always when extraction fails, since no fetch runs), the worker cycle
updates `last_complete`/`last_resolution`/`last_bitrate` on success and
`last_error`/`last_error_message` on failure, publishes the channel-state
update and the final `SlotStatus` followed by the terminal FIN sentinel,
and frees the slot. When `download()` raises — which happens exactly when
the postprocessing permit was never acquired (see C8) — the worker's
`except Exception` branch skips the channel update, the final status and
FIN, publishing only an error message, though the slot is still freed. -/
theorem c3_worker_cycle_publishes (slot : SlotState) (seq : Int) (slotIndex : Nat)
    (channel : Channel) (now : DateTime) (extractOk : Bool)
    (current : Option CurrentChannel)
    (getErrorResult : Bool × (String × String × String))
    (fetch : FetchOutcome) (hookPublished : List Envelope) (lockHeld : Bool)
    (hnoraise :
      downloadRaises (processorDownload slotIndex current fetch hookPublished lockHeld)
        = false) :
    WorkerCyclePublishes slot seq slotIndex channel now extractOk current
      getErrorResult fetch hookPublished lockHeld := by
  unfold WorkerCyclePublishes
  cases extractOk with
  | true =>
    simp only [workerCycle, if_true]
    match hdl : (processorDownload slotIndex current fetch hookPublished lockHeld).result with
    | .error e =>
      exfalso
      simp only [downloadRaises, hdl] at hnoraise
      exact Bool.noConfusion hnoraise
    | .ok (hasErr, msg) =>
      refine ⟨rfl, rfl, ?_⟩
      cases hasErr with
      | true =>
        refine ⟨⟨(slotIndex : Int),
            Payload.slotStatus (initialSlotStatus slotIndex channel seq)⟩
            :: (processorDownload slotIndex current fetch hookPublished lockHeld).published,
          _, _, by rw [List.cons_append], by simp, by simp, ?_⟩
        intro _
        constructor <;> simp
      | false =>
        refine ⟨⟨(slotIndex : Int),
            Payload.slotStatus (initialSlotStatus slotIndex channel seq)⟩
            :: (processorDownload slotIndex current fetch hookPublished lockHeld).published,
          _, _, by rw [List.cons_append], by simp, ?_, by simp⟩
        intro _
        refine ⟨by simp, by simp, by simp⟩
  | false =>
    simp only [workerCycle, Bool.false_eq_true, if_false]
    refine ⟨by simp, by simp, ?_⟩
    refine ⟨[], _, _, by rw [List.nil_append], by simp, by simp, ?_⟩
    intro _
    constructor <;> simp

/-- Channel processed in the C3 scenarios. -/
def c3Channel : Channel :=
  ⟨"omega", some 1, none, none, none, none, none, none, none⟩

/-- Slot state at the start of the C3 scenarios (`process` has installed
`c3Channel`). -/
def c3Slot : SlotState := { busy := true, activeChannel := some c3Channel }

/-- Extracted metadata in the C3 scenarios. -/
def c3Current : CurrentChannel :=
  { id := "vid3", original_url := "u3", width := 1920, height := 1080,
    tbr := 4000, status := "finished", processor := "progress",
    filename := "h.mp4", elapsed := 2000, downloaded_bytes := 8000000 }

/-- Witness for C3: a successful cycle (fetch returns truthy, permit held at
cleanup). -/
theorem c3_worker_cycle_publishes_witness :
    WorkerCyclePublishes c3Slot 0 1 c3Channel ⟨2026, 10, 12, 11, 0, 0⟩ true
      (some c3Current) (false, ("", "", "")) (FetchOutcome.ok true) [] true :=
  c3_worker_cycle_publishes c3Slot 0 1 c3Channel ⟨2026, 10, 12, 11, 0, 0⟩ true
    (some c3Current) (false, ("", "", "")) (FetchOutcome.ok true) [] true (by decide)

/-- The worker cycle in which the fetch raises before the permit was ever
acquired, so `download()` raises `RuntimeError` out of its cleanup. -/
def c3ExnOutcome : WorkerOutcome :=
  workerCycle c3Slot 0 1 c3Channel ⟨2026, 10, 12, 11, 0, 0⟩ true (some c3Current)
    (false, ("", "", "")) (FetchOutcome.exn "HTTP Error 500") [] false

/-- Counterexample to C3 as stated: in a failing cycle whose `download()`
raises (fetch exception, permit never acquired), the channel's `last_error`
is not updated, no FIN sentinel is published, and only the slot's busy flag
is reset — the claim's failure-path updates and publishes do not happen. -/
theorem c3_counterexample_escaping_release :
    c3ExnOutcome.channel.last_error = none ∧
    c3ExnOutcome.published.all (fun e => e.payload != Payload.finished) = true ∧
    c3ExnOutcome.slot.busy = false := by decide

/-! ## C9: the stale active-channel name of an idle slot -/

/-- The slot-state outcome of a worker cycle: only the busy flag is cleared;
`__active_channel` is untouched. -/
theorem workerCycle_slot (slot : SlotState) (seq : Int) (slotIndex : Nat)
    (channel : Channel) (now : DateTime) (extractOk : Bool)
    (current : Option CurrentChannel) (g : Bool × (String × String × String))
    (fetch : FetchOutcome) (hookPublished : List Envelope) (lockHeld : Bool) :
    (workerCycle slot seq slotIndex channel now extractOk current g fetch
        hookPublished lockHeld).slot
      = { slot with busy := false } := by
  unfold workerCycle
  cases extractOk with
  | false => rfl
  | true =>
    cases hres : (processorDownload slotIndex current fetch hookPublished lockHeld).result with
    | error e => simp [hres]
    | ok v =>
      obtain ⟨hasErr, msg⟩ := v
      simp [hres]

/-- C9 (confirmed, implicit claim): after its worker finishes a cycle the
slot is free (`busy()` is false) but the active channel is never cleared, so
`check_name` still answers true for the processed channel's name — and
consequently `__next_channel` never returns that name while the idle slot
still holds it. -/
theorem c9_stale_active_name (slot : SlotState) (seq : Int) (slotIndex : Nat)
    (ch : Channel) (now : DateTime) (extractOk : Bool)
    (current : Option CurrentChannel) (g : Bool × (String × String × String))
    (fetch : FetchOutcome) (hookPublished : List Envelope) (lockHeld : Bool)
    (hactive : slot.activeChannel = some ch)
    (channels : List Channel) (slots : List SlotState) (now2 : DateTime)
    (skipFuel depth idx i : Nat) (c : Channel)
    (hmem : ({ busy := false, activeChannel := some ch } : SlotState) ∈ slots)
    (hfound : nextChannel channels slots now2 skipFuel depth idx = .found i c) :
    (workerCycle slot seq slotIndex ch now extractOk current g fetch hookPublished
        lockHeld).slot
      = { busy := false, activeChannel := some ch } ∧
    checkName { busy := false, activeChannel := some ch } ch.name = true ∧
    c.name ≠ ch.name := by
  refine ⟨?_, ?_, ?_⟩
  · rw [workerCycle_slot]
    rw [show ({ slot with busy := false } : SlotState)
        = { busy := false, activeChannel := slot.activeChannel } from rfl, hactive]
  · simp [checkName, slotGetName]
  · have hcheck := nextChannel_found_no_collision channels slots now2 skipFuel depth idx i c
      hfound _ hmem
    simp only [checkName, slotGetName] at hcheck
    exact beq_eq_false_iff_ne.mp hcheck

/-- Stale channel held by the idle slot in the C9 witness. -/
def c9Stale : Channel := ⟨"held", some 0, none, none, none, none, none, none, none⟩

/-- Fresh channel the scheduler should pick in the C9 witness. -/
def c9Fresh : Channel := ⟨"fresh", some 1, none, none, none, none, none, none, none⟩

/-- Witness for C9 at a concrete scene: the idle slot still holds `"held"`,
and `__next_channel` resolves `"fresh"` instead. -/
theorem c9_stale_active_name_witness :
    (workerCycle { busy := true, activeChannel := some c9Stale } 0 0 c9Stale
        ⟨2026, 10, 12, 12, 0, 0⟩ false none (true, ("", "", "extract failed"))
        (FetchOutcome.ok false) [] false).slot
      = { busy := false, activeChannel := some c9Stale } ∧
    checkName { busy := false, activeChannel := some c9Stale } c9Stale.name = true ∧
    c9Fresh.name ≠ c9Stale.name :=
  c9_stale_active_name { busy := true, activeChannel := some c9Stale } 0 0 c9Stale
    ⟨2026, 10, 12, 12, 0, 0⟩ false none (true, ("", "", "extract failed"))
    (FetchOutcome.ok false) [] false rfl
    [c9Stale, c9Fresh] [{ busy := false, activeChannel := some c9Stale }]
    ⟨2026, 10, 12, 12, 0, 0⟩ 4 3 0 1 c9Fresh (by decide) (by decide)

/-! ## Calendar arithmetic for `datetime` differences (`util.py` uses
naive `datetime` values; Python's `datetime` is proleptic Gregorian) -/

/-- Leap-year rule of Python's `datetime` calendar. -/
def isLeap (y : Nat) : Bool := (y % 4 == 0 && y % 100 != 0) || y % 400 == 0

/-- Length of a month in Python's `datetime` calendar. -/
def daysInMonth (y m : Nat) : Nat :=
  if m = 2 then (if isLeap y then 29 else 28)
  else if m = 4 ∨ m = 6 ∨ m = 9 ∨ m = 11 then 30
  else 31

/-- Days in the years before year `y` (year 1 is the first). -/
def daysBeforeYear (y : Nat) : Nat :=
  (y - 1) * 365 + (y - 1) / 4 - (y - 1) / 100 + (y - 1) / 400

/-- Days in the months of year `y` before month `m`. -/
def daysBeforeMonth (y m : Nat) : Nat :=
  (List.range (m - 1)).foldl (fun acc i => acc + daysInMonth y (i + 1)) 0

/-- Python `datetime.toordinal`: day count in the proleptic Gregorian
calendar. -/
def toOrdinal (d : DateTime) : Nat :=
  daysBeforeYear d.year + daysBeforeMonth d.year d.month + d.day

/-- Whole-second timestamp of a naive second-precision `datetime`. -/
def toSeconds (d : DateTime) : Nat :=
  toOrdinal d * 86400 + d.hour * 3600 + d.minute * 60 + d.second

/-- Embedding of `(b - a).total_seconds()` for naive second-precision
datetimes. -/
def elapsedSeconds (a b : DateTime) : Int :=
  (toSeconds b : Int) - (toSeconds a : Int)

/-! ## Subprocess monitor (`cbt/slot.py`) -/

/-- Embedding of the `CapturedProcess` dataclass (`cbt/slot.py`). The
source's `match` field (the captured command line) is `matchLine` here,
`match` being reserved in Lean. -/
structure CapturedProcess where
  slot_index : Option Nat
  pid : Nat
  matchLine : Option String
  time : DateTime
  filename : Option String
  filesize : Nat
deriving DecidableEq, Repr

/-- Signals sent with `os.kill`. -/
inductive Sig where
  | sigterm
  | sigkill
deriving DecidableEq, Repr

/-- Python `==` between an `int` and a `(pid, process)` tuple: always
`False`, as there is no cross-type equality. -/
def intEqPair (n : Nat) (kv : Nat × CapturedProcess) : Bool := false

/-- Embedding of the guard `pid in self.__subprocesses.items()` in
`__process_dead_processes`: membership of an `int` in a view of
`(pid, process)` tuples, hence `intEqPair` on each item and never true. -/
def intInItems (pid : Nat) (subs : List (Nat × CapturedProcess)) : Bool :=
  subs.any (intEqPair pid)

/-- Dict lookup on the insertion-ordered tracking map. -/
def lookupSub : List (Nat × CapturedProcess) → Nat → Option CapturedProcess
  | [], _ => none
  | (k, v) :: rest, pid => if k = pid then some v else lookupSub rest pid

/-- Dict deletion on the tracking map. -/
def removeSub (subs : List (Nat × CapturedProcess)) (pid : Nat) :
    List (Nat × CapturedProcess) :=
  subs.filter (fun kv => kv.1 ≠ pid)

/-- Effects of a monitor operation: tracking map afterwards, envelopes
published, signals sent, and whether an uncaught exception ended the pass
(Python raises `RuntimeError` when a dict changes size during iteration). -/
structure MonitorEffects where
  subs : List (Nat × CapturedProcess)
  published : List Envelope
  signals : List (Nat × Sig)
  crashed : Bool
deriving DecidableEq, Repr

/-- Body of the second `for pid in dead_processes` loop of
`__process_dead_processes`: the removal and the publication of
"unresponsive" then "finished" are guarded by
`pid in self.__subprocesses.items()` (see `intInItems`) and, inside, by
the walrus truthiness test `if slot_index := ...` that is false for `None`
and for slot index 0. -/
def removeDeadPid (acc : List (Nat × CapturedProcess) × List Envelope) (pid : Nat) :
    List (Nat × CapturedProcess) × List Envelope :=
  if intInItems pid acc.1 then
    let pubs : List Envelope :=
      match lookupSub acc.1 pid with
      | some proc =>
        match proc.slot_index with
        | some si =>
          if si ≠ 0 then
            [⟨(si : Int), .unresponsive⟩, ⟨(si : Int), .finished⟩]
          else []
        | none => []
      | none => []
    (removeSub acc.1 pid, acc.2 ++ pubs)
  else acc

/-- Embedding of `SubprocessMonitor.__process_dead_processes`. `alive pid`
is the first `os.kill(pid, 0)` probe and `aliveAfterTerm pid` the probe
after SIGTERM and the grace sleep (an `OSError` from a probe routes to the
`except` that collects the pid). First pass: collect `dead_processes`,
escalating terminate-then-kill for hung processes. Second pass: fold
`removeDeadPid` over the collected pids. -/
def processDeadProcesses (subs : List (Nat × CapturedProcess)) (now : DateTime)
    (timeout : Nat) (alive aliveAfterTerm : Nat → Bool) : MonitorEffects :=
  let pass1 : List Nat × List (Nat × Sig) :=
    subs.foldl
      (fun acc kv =>
        if alive kv.1 then
          if elapsedSeconds kv.2.time now > (timeout : Int) then
            if aliveAfterTerm kv.1 then
              (acc.1 ++ [kv.1], acc.2 ++ [(kv.1, .sigterm), (kv.1, .sigkill)])
            else
              (acc.1 ++ [kv.1], acc.2 ++ [(kv.1, .sigterm)])
          else acc
        else (acc.1 ++ [kv.1], acc.2))
      ([], [])
  let pass2 : List (Nat × CapturedProcess) × List Envelope :=
    pass1.1.foldl removeDeadPid (subs, [])
  { subs := pass2.1, published := pass2.2, signals := pass1.2, crashed := false }

/-- Embedding of `SubprocessMonitor.__kill_process`: scan the tracking map
for the process attributed to `slotIndex`; send terminate (skipped when the
process is already gone — `OSError` is swallowed), wait the grace period,
probe, force-kill if still alive, publish "unresponsive" then "finished"
for the slot, and delete the entry. Deleting during `dict.items()`
iteration makes the next iteration step raise `RuntimeError` ("dictionary
changed size during iteration"), which nothing in the monitor loop catches,
so at most the first matching process is handled and the pass crashes. -/
def killProcess (subs : List (Nat × CapturedProcess)) (slotIndex : Nat)
    (aliveNow aliveAfterTerm : Nat → Bool) : MonitorEffects :=
  match subs.find? (fun kv => kv.2.slot_index = some slotIndex) with
  | none => { subs := subs, published := [], signals := [], crashed := false }
  | some kv =>
    { subs := removeSub subs kv.1
      published := [⟨(slotIndex : Int), .unresponsive⟩, ⟨(slotIndex : Int), .finished⟩]
      signals :=
        if aliveNow kv.1 then
          (kv.1, Sig.sigterm) :: (if aliveAfterTerm kv.1 then [(kv.1, Sig.sigkill)] else [])
        else []
      crashed := true }

/-- Monitor effects of an operation that touches nothing. -/
def noEffects (subs : List (Nat × CapturedProcess)) : MonitorEffects :=
  { subs := subs, published := [], signals := [], crashed := false }

/-- Dict assignment `self.__filenames[slot_index] = filename`. -/
def setFilename (filenames : List (Int × String)) (slotIndex : Int) (fn : String) :
    List (Int × String) :=
  if filenames.any (fun kv => kv.1 = slotIndex) then
    filenames.map (fun kv => if kv.1 = slotIndex then (kv.1, fn) else kv)
  else filenames ++ [(slotIndex, fn)]

/-- One dequeued envelope handled by `SubprocessMonitor.__monitor_loop`'s
dispatch: envelopes destined `MSG_SLOT` are consumed (a `FileInfo` records
the slot's current output file, a plain int is a kill request, anything
else is dropped); every other envelope is put back unchanged. -/
def monitorStep (filenames : List (Int × String)) (subs : List (Nat × CapturedProcess))
    (aliveNow aliveAfterTerm : Nat → Bool) (e : Envelope) :
    (List (Int × String) × MonitorEffects) × List Envelope :=
  if e.dest = MSG_SLOT then
    match e.payload with
    | .fileInfo f => ((setFilename filenames f.slot_index f.filename, noEffects subs), [])
    | .killRequest k => ((filenames, killProcess subs k aliveNow aliveAfterTerm), [])
    | _ => ((filenames, noEffects subs), [])
  else ((filenames, noEffects subs), [e])

/-- One dequeued envelope handled by `Channels.__slot_callback`: envelopes
destined `MSG_CHAN` are consumed (a `Channel` payload replaces every roster
entry with the same name; anything else is dropped); every other envelope
is put back unchanged. -/
def slotCallbackStep (channels : List Channel) (e : Envelope) :
    List Channel × List Envelope :=
  if e.dest = MSG_CHAN then
    match e.payload with
    | .channel response =>
      (channels.map (fun c => if c.name = response.name then response else c), [])
    | _ => (channels, [])
  else (channels, [e])

/-- One dequeued envelope handled by `DisplayController.__control_loop`'s
dispatch: display-destination envelopes and slot-indexed envelopes with a
non-`None` payload are consumed; everything else is put back unchanged.
The `Bool` says whether the envelope was consumed. -/
def displayDispatch (e : Envelope) : Bool × List Envelope :=
  if e.dest = MSG_DISP then (true, [])
  else if 0 ≤ e.dest ∧ e.payload ≠ Payload.pynone then (true, [])
  else (false, [e])

theorem intInItems_false (pid : Nat) (subs : List (Nat × CapturedProcess)) :
    intInItems pid subs = false := by
  simp [intInItems, intEqPair]

theorem foldl_const {α β : Type} (f : β → α → β) (h : ∀ b a, f b a = b) :
    ∀ (l : List α) (b : β), l.foldl f b = b := by
  intro l
  induction l with
  | nil => intro b; rfl
  | cons a rest ih => intro b; rw [List.foldl_cons, h b a]; exact ih b

/-- C2 (code_bug): the second pass of `__process_dead_processes` guards the
removal with `pid in self.__subprocesses.items()`, which compares an int
against `(pid, process)` tuples and is always false — so for every tracking
map, timeout and liveness outcome, no process is ever removed from tracking
and neither "unresponsive" nor "finished" is ever published by the
hung-process pass, even though the terminate/kill escalation itself runs. -/
theorem c2_hung_process_never_reaped (subs : List (Nat × CapturedProcess))
    (now : DateTime) (timeout : Nat) (alive aliveAfterTerm : Nat → Bool) :
    (processDeadProcesses subs now timeout alive aliveAfterTerm).subs = subs ∧
    (processDeadProcesses subs now timeout alive aliveAfterTerm).published = [] := by
  have hid : ∀ (b : List (Nat × CapturedProcess) × List Envelope) (a : Nat),
      removeDeadPid b a = b := by
    intro b a
    simp [removeDeadPid, intInItems_false]
  have hfold := foldl_const removeDeadPid hid
  constructor <;> simp [processDeadProcesses, hfold]

/-- Tracked subprocess used as the C2 failing input: pid 123, attributed to
slot 1, last seen 40000 seconds before `now` with a 36000-second timeout. -/
def c2Proc : CapturedProcess :=
  { slot_index := some 1, pid := 123, matchLine := some "ffmpeg out.mp4",
    time := ⟨2026, 10, 11, 0, 0, 0⟩, filename := some "out.mp4", filesize := 0 }

/-- Witness for C2 at the failing input: the pass sends SIGTERM then
SIGKILL to the hung pid 123, yet the tracking map is unchanged and nothing
is published. -/
theorem c2_hung_process_never_reaped_witness :
    (processDeadProcesses [(123, c2Proc)] ⟨2026, 10, 11, 11, 6, 40⟩ 36000
        (fun _ => true) (fun _ => true)).signals
      = [(123, Sig.sigterm), (123, Sig.sigkill)] ∧
    (processDeadProcesses [(123, c2Proc)] ⟨2026, 10, 11, 11, 6, 40⟩ 36000
        (fun _ => true) (fun _ => true)).subs = [(123, c2Proc)] ∧
    (processDeadProcesses [(123, c2Proc)] ⟨2026, 10, 11, 11, 6, 40⟩ 36000
        (fun _ => true) (fun _ => true)).published = [] :=
  ⟨by decide,
   (c2_hung_process_never_reaped [(123, c2Proc)] ⟨2026, 10, 11, 11, 6, 40⟩ 36000
      (fun _ => true) (fun _ => true)).1,
   (c2_hung_process_never_reaped [(123, c2Proc)] ⟨2026, 10, 11, 11, 6, 40⟩ 36000
      (fun _ => true) (fun _ => true)).2⟩

/-- C7 (confirmed): for each of the three consumer loops — channel-state
callback, subprocess monitor, display control — an envelope whose
destination does not match the consumer's identity is re-enqueued unchanged
with its state untouched, so no payload taken off the queue by a
non-matching consumer is ever lost. -/
theorem c7_nonmatching_requeued (channels : List Channel)
    (filenames : List (Int × String)) (subs : List (Nat × CapturedProcess))
    (aliveNow aliveAfterTerm : Nat → Bool) (e : Envelope) :
    (e.dest ≠ MSG_CHAN → slotCallbackStep channels e = (channels, [e])) ∧
    (e.dest ≠ MSG_SLOT →
      monitorStep filenames subs aliveNow aliveAfterTerm e
        = ((filenames, noEffects subs), [e])) ∧
    (e.dest ≠ MSG_DISP → e.dest < 0 → displayDispatch e = (false, [e])) := by
  refine ⟨?_, ?_, ?_⟩
  · intro h
    simp only [slotCallbackStep]
    rw [if_neg h]
  · intro h
    simp only [monitorStep]
    rw [if_neg h]
  · intro h hneg
    simp only [displayDispatch]
    rw [if_neg h, if_neg (by omega)]

/-! ## Display-side status consumer (`cbt/display.py`, `cbt/ansi.py`) -/

/-- Zero-padded two-digit rendering used by `strftime` fields. -/
def pad2 (n : Nat) : List Char := [Nat.digitChar (n / 10), Nat.digitChar (n % 10)]

/-- Zero-padded four-digit rendering of a year below 10000. -/
def pad4 (n : Nat) : List Char := pad2 (n / 100) ++ pad2 (n % 100)

/-- Characters of `d.strftime("%Y-%m-%d")`. -/
def dateChars (d : DateTime) : List Char :=
  pad4 d.year ++ ('-' :: pad2 d.month) ++ ('-' :: pad2 d.day)

/-- Characters of `d.strftime("%Y-%m-%d %H:%M:%S")`, the format written by
`util.time_str`. -/
def timeStrChars (d : DateTime) : List Char :=
  dateChars d ++ (' ' :: pad2 d.hour) ++ (':' :: pad2 d.minute) ++ (':' :: pad2 d.second)

/-- Embedding of `util.time_str` for an explicit datetime. -/
def timeStr (d : DateTime) : String := String.mk (timeStrChars d)

/-- Embedding of `util.time_datestr` for an explicit datetime. -/
def timeDatestr (d : DateTime) : String := String.mk (dateChars d)

/-! ANSI escape constants from `cbt/ansi.py` used by the embedded display
code; the truecolor codes are `ANSI.color` applied to the source's hex
values. -/

namespace ANSI

def DefaultColor : String := "\x1b[39m"

def Blink : String := "\x1b[5m"

def ResetBlink : String := "\x1b[25m"

def Red : String := "\x1b[31m"

def Yellow : String := "\x1b[33m"

def BrBlack : String := "\x1b[90m"

def Gold : String := "\x1b[38;2;212;175;55m"

def Silver : String := "\x1b[38;2;140;140;150m"

def Bronze : String := "\x1b[38;2;102;93;30m"

def Pink : String := "\x1b[38;2;240;156;187m"

def Blue : String := "\x1b[38;2;137;207;240m"

def Green : String := "\x1b[38;2;124;252;0m"

end ANSI

/-! Status icons from `cbt/display.py`. -/

namespace StatusIcons

def downloading : String :=
  ANSI.Red ++ ANSI.Blink ++ "●" ++ ANSI.ResetBlink ++ ANSI.DefaultColor

def inactive : String := ANSI.Green ++ "○" ++ ANSI.DefaultColor

def warning : String := ANSI.Yellow ++ "○" ++ ANSI.DefaultColor

def error : String := ANSI.Red ++ "○" ++ ANSI.DefaultColor

def processing : String := ANSI.Green ++ "●" ++ ANSI.DefaultColor

def gold_rank : String := ANSI.Gold ++ "❃" ++ ANSI.DefaultColor

def silver_rank : String := ANSI.Silver ++ "❃" ++ ANSI.DefaultColor

def bronze_rank : String := ANSI.Bronze ++ "❃" ++ ANSI.DefaultColor

def pink_rank : String := ANSI.Pink ++ "✦" ++ ANSI.DefaultColor

def blue_rank : String := ANSI.Blue ++ "✦" ++ ANSI.DefaultColor

def no_rank : String := " "

end StatusIcons

/-- Embedding of the `SlotColumns` dataclass (`cbt/display.py`). -/
structure SlotColumns where
  slot : String
  previous : String
  status : String
  timer : String
  filesize : String
  resolution : String
  bitrate : String
  rank : String
  channel : String
deriving DecidableEq, Repr

/-- Embedding of the `SlotStatus` dataclass (`cbt/display.py`): the display
controller's per-slot state, carrying the last accepted `sequence`. -/
structure SlotStatus where
  slot : SlotColumns
  start : Option DateTime
  is_downloading : Bool
  sequence : Int
deriving DecidableEq, Repr

/-- Embedding of `DisplayController.__get_rank`. -/
def displayGetRank (rank : Int) : String :=
  if rank = 0 then StatusIcons.gold_rank
  else if rank = 1 then StatusIcons.silver_rank
  else if rank = 2 then StatusIcons.bronze_rank
  else if rank = 3 then StatusIcons.pink_rank
  else if rank = 4 then StatusIcons.blue_rank
  else StatusIcons.no_rank

/-- Python `f"{x:>w}"`: right-align in a field of `w` spaces. -/
def rjust (s : String) (w : Nat) : String :=
  String.mk (List.replicate (w - s.length) ' ') ++ s

/-- The `DisplayController.POSTPROCESSES` dict; `none` is a `KeyError`. -/
def postProcessName (p : String) : Option String :=
  if p = "Merger" then some "Merge"
  else if p = "MoveFiles" then some "Move"
  else if p = "FixupM3u8" then some "Normalize"
  else if p = "" then some "Unknown"
  else none

/-- Embedding of `DisplayController.__update_channel_slot`: refresh the
column record from a `CurrentChannel` progress payload. Returns the columns
after mutation and `some (status == "finished")`, or `none` when the
`POSTPROCESSES` lookup raises `KeyError` (the mutations made before the
lookup persist, the exception escaping to the control loop's catch-all).
The source's float bitrate arithmetic (`:>6.0f`) is modelled over `Nat`. -/
def updateChannelSlot (slotIndex : Nat) (cc : CurrentChannel) (current : SlotColumns) :
    SlotColumns × Option Bool :=
  let current := { current with
    slot := rjust (toString (slotIndex + 1)) 3
    channel := cc.id
    bitrate :=
      if cc.elapsed ≠ 0 ∧ cc.downloaded_bytes ≠ 0 then
        rjust (toString (cc.downloaded_bytes * 8 / cc.elapsed / 1024)) 6
      else rjust (toString cc.tbr) 6
    resolution := toString cc.width ++ "✗" ++ toString cc.height }
  if cc.processor ≠ "progress" then
    match postProcessName cc.processor with
    | none => (current, none)
    | some pname =>
      let status := pname ++ " " ++ cc.status
      ({ current with
          channel := cc.id ++ " " ++ ANSI.Green ++ "(" ++ status ++ ")" ++ ANSI.DefaultColor
          status :=
            if cc.status = "finished" then StatusIcons.inactive else StatusIcons.processing },
        some (cc.status == "finished"))
  else (current, some (cc.status == "finished"))

/-- Embedding of `DisplayController.__update_slot_slot`: refresh the column
record from a `CurrentSlot` status payload, with the error overlay when the
tri-state `has_error` is true. Returns the columns and
`current_slot.is_downloading`. -/
def updateSlotSlot (slotIndex : Nat) (cs : CurrentSlot) (current : SlotColumns) :
    SlotColumns × Bool :=
  let current := { current with
    previous :=
      match cs.previous_download with
      | some d => timeDatestr d
      | none => " "
    channel := cs.channel_name
    rank := displayGetRank cs.channel_rank
    slot := rjust (toString (slotIndex + 1)) 3
    status := if cs.is_downloading then StatusIcons.processing else StatusIcons.inactive }
  if cs.has_error = some true then
    ({ current with
        status := StatusIcons.error
        channel :=
          if cs.channel_name ≠ cs.status_message.2.1 then
            cs.channel_name ++ " " ++ ANSI.Yellow ++ "(" ++ cs.status_message.2.1
              ++ " " ++ cs.status_message.2.2 ++ ")" ++ ANSI.DefaultColor
          else
            cs.channel_name ++ " " ++ ANSI.Yellow ++ "(" ++ cs.status_message.2.2
              ++ ")" ++ ANSI.DefaultColor
        bitrate := " "
        resolution := " "
        timer := " "
        filesize := " " },
      cs.is_downloading)
  else (current, cs.is_downloading)

/-- Embedding of `DisplayController.__process_response` for one slot's
display state: a `CurrentChannel` refreshes the columns (a `KeyError` from
the postprocessor table escapes after the common mutations); a
`CurrentSlot` is applied only when its `sequence` is at least the last
accepted one, which it then becomes; the `REC` sentinel stamps the timer
start; the `UNR` sentinel clears the downloading flag; anything else (FIN
included) changes nothing. -/
def processResponse (now : DateTime) (slotIndex : Nat) (st : SlotStatus)
    (response : Payload) : SlotStatus :=
  match response with
  | .currentChannel cc =>
    let pr := updateChannelSlot slotIndex cc st.slot
    match pr.2 with
    | none => { st with slot := pr.1 }
    | some finished =>
      if finished then { st with slot := pr.1, is_downloading := false }
      else { st with slot := pr.1 }
  | .slotStatus cs =>
    if cs.sequence ≥ st.sequence then
      let pr := updateSlotSlot slotIndex cs st.slot
      let st1 : SlotStatus := { st with sequence := cs.sequence, slot := pr.1 }
      let st2 : SlotStatus :=
        if cs.is_downloading then
          { st1 with start := none, slot := { st1.slot with timer := " " } }
        else st1
      { st2 with is_downloading := pr.2 }
    else st
  | .recording => { st with start := some now }
  | .unresponsive => { st with is_downloading := false }
  | _ => st

theorem commonHook_no_slotStatus (slotIndex minDur : Nat) (data : HookData)
    (lockHeld : Bool) :
    ∀ e ∈ (commonHook slotIndex minDur data lockHeld).published,
    ∀ s, e.payload ≠ Payload.slotStatus s := by
  intro e he s
  unfold commonHook at he
  simp only at he
  split at he
  · split at he
    · simp only [List.mem_singleton] at he
      subst he
      simp
    · simp only [List.mem_cons, List.mem_singleton, List.mem_nil_iff, or_false] at he
      rcases he with rfl | rfl | rfl <;> simp
  · simp only [List.mem_singleton] at he
    subst he
    simp

theorem processorDownload_no_slotStatus (slotIndex : Nat)
    (current : Option CurrentChannel) (fetch : FetchOutcome)
    (hookPublished : List Envelope) (lockHeld : Bool)
    (hhp : ∀ e ∈ hookPublished, ∀ s, e.payload ≠ Payload.slotStatus s) :
    ∀ e ∈ (processorDownload slotIndex current fetch hookPublished lockHeld).published,
    ∀ s, e.payload ≠ Payload.slotStatus s := by
  intro e he s
  unfold processorDownload at he
  match current with
  | none => simp at he
  | some cur =>
    simp only at he
    split at he
    · simp only [List.cons_append, List.mem_cons, List.mem_append,
        List.mem_singleton, List.mem_nil_iff, or_false] at he
      rcases he with rfl | he | rfl | rfl
      · simp
      · exact hhp e he s
      · simp
      · simp
    · simp only [List.cons_append, List.mem_cons, List.mem_append,
        List.mem_singleton, List.mem_nil_iff, or_false] at he
      rcases he with rfl | he | rfl
      · simp
      · exact hhp e he s
      · simp

/-- The worker cycle increments `__sequence` exactly once. -/
theorem workerCycle_sequence (slot : SlotState) (seq : Int) (slotIndex : Nat)
    (channel : Channel) (now : DateTime) (extractOk : Bool)
    (current : Option CurrentChannel) (g : Bool × (String × String × String))
    (fetch : FetchOutcome) (hookPublished : List Envelope) (lockHeld : Bool) :
    (workerCycle slot seq slotIndex channel now extractOk current g fetch
        hookPublished lockHeld).sequence
      = seq + 1 := by
  unfold workerCycle
  cases extractOk with
  | false => rfl
  | true =>
    cases hres : (processorDownload slotIndex current fetch hookPublished lockHeld).result with
    | error e => simp [hres]
    | ok v =>
      obtain ⟨hasErr, msg⟩ := v
      simp [hres]

/-- Specification predicate for C5: the worker stamps every `SlotStatus`
envelope of a cycle with the pre-increment sequence and increments the
counter once per cycle (non-decreasing within a cycle, strictly increasing
across cycles), and the display consumer discards exactly the strictly
lower sequences, adopting the incoming sequence otherwise (equal sequences
are accepted, not discarded). -/
def SequenceDiscipline (slot : SlotState) (seq : Int) (slotIndex : Nat)
    (channel : Channel) (now : DateTime) (extractOk : Bool)
    (current : Option CurrentChannel) (g : Bool × (String × String × String))
    (fetch : FetchOutcome) (hookPublished : List Envelope) (lockHeld : Bool)
    (dispNow : DateTime) (dispIndex : Nat) (st : SlotStatus) (cs : CurrentSlot) : Prop :=
  (workerCycle slot seq slotIndex channel now extractOk current g fetch
      hookPublished lockHeld).sequence = seq + 1 ∧
  (∀ e ∈ (workerCycle slot seq slotIndex channel now extractOk current g fetch
      hookPublished lockHeld).published,
    ∀ s, e.payload = Payload.slotStatus s → s.sequence = seq) ∧
  (cs.sequence < st.sequence →
    processResponse dispNow dispIndex st (Payload.slotStatus cs) = st) ∧
  (st.sequence ≤ cs.sequence →
    (processResponse dispNow dispIndex st (Payload.slotStatus cs)).sequence = cs.sequence)

/-- C5 (amended): all `SlotStatus` envelopes published in one worker cycle
carry the same pre-increment sequence (the initial and the final status of
a cycle share it), the per-slot counter grows by one per cycle — so
sequences are non-decreasing across publishes and strictly increasing
across cycles, not strictly increasing per publish — and the consumer
discards exactly the updates whose sequence is strictly lower than the last
accepted one: an equal sequence is accepted and applied. -/
theorem c5_sequence_discipline (slot : SlotState) (seq : Int) (slotIndex : Nat)
    (channel : Channel) (now : DateTime) (extractOk : Bool)
    (current : Option CurrentChannel) (g : Bool × (String × String × String))
    (fetch : FetchOutcome) (hookPublished : List Envelope) (lockHeld : Bool)
    (dispNow : DateTime) (dispIndex : Nat) (st : SlotStatus) (cs : CurrentSlot)
    (hhp : ∀ e ∈ hookPublished, ∀ s, e.payload ≠ Payload.slotStatus s) :
    SequenceDiscipline slot seq slotIndex channel now extractOk current g fetch
      hookPublished lockHeld dispNow dispIndex st cs := by
  refine ⟨workerCycle_sequence slot seq slotIndex channel now extractOk current g
    fetch hookPublished lockHeld, ?_, ?_, ?_⟩
  · intro e he s hs
    have hdl := processorDownload_no_slotStatus slotIndex current fetch
      hookPublished lockHeld hhp
    unfold workerCycle at he
    cases extractOk with
    | false =>
      simp only [Bool.false_eq_true, if_false, List.mem_cons, List.mem_singleton,
        List.mem_nil_iff, or_false] at he
      rcases he with rfl | rfl | rfl | rfl
      · simp at hs
      · simp only [Payload.slotStatus.injEq] at hs
        subst hs
        rfl
      · simp at hs
      · simp at hs
    | true =>
      simp only [if_true] at he
      cases hres : (processorDownload slotIndex current fetch hookPublished lockHeld).result with
      | error er =>
        simp only [hres, List.cons_append, List.mem_cons, List.mem_append,
          List.mem_singleton, List.mem_nil_iff, or_false] at he
        rcases he with rfl | he | rfl
        · simp only [Payload.slotStatus.injEq] at hs
          subst hs
          rfl
        · exact absurd hs (hdl e he s)
        · simp at hs
      | ok v =>
        obtain ⟨hasErr, msg⟩ := v
        simp only [hres, List.cons_append, List.mem_cons, List.mem_append,
          List.mem_singleton, List.mem_nil_iff, or_false] at he
        rcases he with rfl | he | rfl | rfl | rfl | rfl
        · simp only [Payload.slotStatus.injEq] at hs
          subst hs
          rfl
        · exact absurd hs (hdl e he s)
        · simp at hs
        · simp only [Payload.slotStatus.injEq] at hs
          subst hs
          rfl
        · simp at hs
        · simp at hs
  · intro hlt
    simp only [processResponse]
    rw [if_neg (by omega)]
  · intro hle
    simp only [processResponse]
    rw [if_pos (by omega)]
    split <;> rfl

/-- Channel processed in the C5 scenarios. -/
def c5Channel : Channel :=
  ⟨"sigma", some 2, none, none, none, none, none, none, none⟩

/-- Extracted metadata in the C5 scenarios. -/
def c5Current : CurrentChannel :=
  { id := "vid5", original_url := "u5", width := 1280, height := 720,
    tbr := 3000, status := "finished", processor := "progress",
    filename := "s.mp4", elapsed := 1800, downloaded_bytes := 7000000 }

/-- Display state used in the C5 scenarios: last accepted sequence 7. -/
def c5St : SlotStatus :=
  { slot := ⟨" ", " ", " ", " ", " ", " ", " ", " ", " "⟩,
    start := none, is_downloading := false, sequence := 7 }

/-- Incoming `SlotStatus` payload whose sequence equals the last accepted
one. -/
def c5Cs : CurrentSlot :=
  { index := 0, channel_name := "sigma", channel_rank := 2,
    previous_download := none, is_downloading := true, is_active := true,
    is_complete := false, has_error := none, status_message := ("", "", ""),
    sequence := 7 }

/-- One successful worker cycle started at sequence 7. -/
def c5Cycle : WorkerOutcome :=
  workerCycle { busy := true, activeChannel := some c5Channel } 7 0 c5Channel
    ⟨2026, 10, 12, 13, 0, 0⟩ true (some c5Current) (false, ("", "", ""))
    (FetchOutcome.ok true) [] true

/-- Witness for C5 at concrete inputs. -/
theorem c5_sequence_discipline_witness :
    SequenceDiscipline { busy := true, activeChannel := some c5Channel } 7 0
      c5Channel ⟨2026, 10, 12, 13, 0, 0⟩ true (some c5Current) (false, ("", "", ""))
      (FetchOutcome.ok true) [] true ⟨2026, 10, 12, 13, 0, 1⟩ 0 c5St c5Cs :=
  c5_sequence_discipline { busy := true, activeChannel := some c5Channel } 7 0
    c5Channel ⟨2026, 10, 12, 13, 0, 0⟩ true (some c5Current) (false, ("", "", ""))
    (FetchOutcome.ok true) [] true ⟨2026, 10, 12, 13, 0, 1⟩ 0 c5St c5Cs
    (by intro e he s; simp at he)

/-- Counterexample to C5 as stated: the two `SlotStatus` envelopes of one
worker cycle carry the same sequence 7 (not strictly increasing across
publishes), and the consumer applies — rather than discards — an incoming
`SlotStatus` whose sequence equals the last accepted one. -/
theorem c5_counterexample_equal_sequence :
    (c5Cycle.published.filterMap (fun e =>
        match e.payload with
        | Payload.slotStatus s => some s.sequence
        | _ => none)) = [7, 7] ∧
    processResponse ⟨2026, 10, 12, 13, 0, 1⟩ 0 c5St (Payload.slotStatus c5Cs) ≠ c5St := by
  constructor
  · decide
  · decide

/-! ## C10: persistence round-trip (`Channels.__save_channels`,
`Channels.__init__`, `Channel.__post_init__`, `util.str_time`)

The channels file is modelled as a list of lines, each a `List Char`
without the trailing newline (reading a file line by line and stripping is
faithful as long as no field contains a newline, which the claim assumes).
-/

/-- Python `str.split(";")`: split on every semicolon, keeping empty
parts. -/
def splitSemi : List Char → List (List Char)
  | [] => [[]]
  | c :: rest =>
    if c = ';' then [] :: splitSemi rest
    else
      match splitSemi rest with
      | [] => [[c]]
      | f :: r => (c :: f) :: r

/-- The `";".join(...)` of `__save_channels`. -/
def joinSemi : List (List Char) → List Char
  | [] => []
  | [f] => f
  | f :: rest => f ++ ';' :: joinSemi rest

/-- The default whitespace set of Python `str.strip()`. -/
def isPySpace (c : Char) : Bool :=
  c = ' ' || c = '\t' || c = '\n' || c = '\r' || c = '\x0b' || c = '\x0c'

/-- Python `str.strip()`. -/
def pyStrip (s : List Char) : List Char :=
  ((s.dropWhile isPySpace).reverse.dropWhile isPySpace).reverse

/-- Digit rendering with an explicit fuel bound on the number of divisions
(the value itself always suffices). -/
def natToCharsAux : Nat → Nat → List Char
  | 0, n => [Nat.digitChar n]
  | fuel + 1, n =>
    if n < 10 then [Nat.digitChar n]
    else natToCharsAux fuel (n / 10) ++ [Nat.digitChar (n % 10)]

/-- Python `str(n)` digit rendering for naturals. -/
def natToChars (n : Nat) : List Char := natToCharsAux n n

theorem natToCharsAux_congr : ∀ (n fuel fuel' : Nat), n ≤ fuel → n ≤ fuel' →
    natToCharsAux fuel n = natToCharsAux fuel' n := by
  intro n
  induction n using Nat.strong_induction_on with
  | _ n ih =>
    intro fuel fuel' h h'
    cases fuel with
    | zero =>
      cases fuel' with
      | zero => rfl
      | succ f' =>
        have hn : n = 0 := Nat.le_zero.mp h
        subst hn
        simp [natToCharsAux]
    | succ f =>
      cases fuel' with
      | zero =>
        have hn : n = 0 := Nat.le_zero.mp h'
        subst hn
        simp [natToCharsAux]
      | succ f' =>
        by_cases h10 : n < 10
        · simp [natToCharsAux, h10]
        · simp only [natToCharsAux, if_neg h10]
          have hd : n / 10 < n := Nat.div_lt_self (by omega) (by omega)
          rw [ih (n / 10) hd f f' (by omega) (by omega)]

theorem natToChars_eq (n : Nat) :
    natToChars n = if n < 10 then [Nat.digitChar n]
      else natToChars (n / 10) ++ [Nat.digitChar (n % 10)] := by
  unfold natToChars
  cases n with
  | zero => rfl
  | succ m =>
    by_cases h10 : m + 1 < 10
    · simp [natToCharsAux, h10]
    · simp only [natToCharsAux, if_neg h10]
      have hd : (m + 1) / 10 < m + 1 := Nat.div_lt_self (by omega) (by omega)
      rw [natToCharsAux_congr ((m + 1) / 10) m ((m + 1) / 10) (by omega) (le_refl _)]

/-- Numeric value of a digit character. -/
def digitVal (c : Char) : Nat := c.toNat - 48

/-- Digit-string parsing, the success core of Python `int(s)` (the
serialized values never carry sign prefixes, surrounding whitespace or
underscores, where Python is more lenient). -/
def parseNatChars (cs : List Char) : Option Nat :=
  if cs ≠ [] ∧ cs.all Char.isDigit then
    some (cs.foldl (fun a c => a * 10 + digitVal c) 0)
  else none

/-- Python `str(i)` for ints. -/
def intToChars (i : Int) : List Char :=
  if i < 0 then '-' :: natToChars i.natAbs else natToChars i.toNat

/-- Python `int(s)` on the strings produced by `str(int)`: optional minus
sign followed by digits; everything else raises `ValueError` (`none`). -/
def parseIntChars (cs : List Char) : Option Int :=
  match cs with
  | [] => none
  | c :: rest =>
    if c = '-' then
      match parseNatChars rest with
      | some n => some (-(n : Int))
      | none => none
    else
      match parseNatChars (c :: rest) with
      | some n => some ((n : Int))
      | none => none

theorem digitChar_isDigit : ∀ n, n < 10 → (Nat.digitChar n).isDigit = true := by decide

theorem digitVal_digitChar : ∀ n, n < 10 → digitVal (Nat.digitChar n) = n := by decide

theorem natToChars_ne_nil (n : Nat) : natToChars n ≠ [] := by
  rw [natToChars_eq]
  split <;> simp

theorem natToChars_all_digits (n : Nat) : (natToChars n).all Char.isDigit = true := by
  induction n using Nat.strong_induction_on with
  | _ n ih =>
    rw [natToChars_eq]
    split
    · simp [digitChar_isDigit n (by omega)]
    · rw [List.all_append]
      have h1 := ih (n / 10) (Nat.div_lt_self (by omega) (by omega))
      rw [h1]
      simp [digitChar_isDigit (n % 10) (Nat.mod_lt _ (by omega))]

theorem natToChars_foldl (n : Nat) :
    ∀ acc, (natToChars n).foldl (fun a c => a * 10 + digitVal c) acc
      = acc * 10 ^ (natToChars n).length + n := by
  induction n using Nat.strong_induction_on with
  | _ n ih =>
    intro acc
    rw [natToChars_eq]
    split
    · simp [digitVal_digitChar n (by omega)]
    · rw [List.foldl_append, List.length_append]
      have h1 := ih (n / 10) (Nat.div_lt_self (by omega) (by omega)) acc
      rw [h1]
      simp only [List.foldl_cons, List.foldl_nil, List.length_cons, List.length_nil]
      rw [digitVal_digitChar (n % 10) (Nat.mod_lt _ (by omega))]
      rw [pow_succ]
      have hdm : n / 10 * 10 + n % 10 = n := by omega
      ring_nf
      omega

theorem parseNatChars_natToChars (n : Nat) : parseNatChars (natToChars n) = some n := by
  unfold parseNatChars
  rw [if_pos ⟨natToChars_ne_nil n, natToChars_all_digits n⟩]
  rw [natToChars_foldl n 0]
  simp

theorem parseIntChars_intToChars (i : Int) : parseIntChars (intToChars i) = some i := by
  unfold intToChars
  split
  · rename_i hneg
    have habs : (i.natAbs : Int) = -i := by
      rw [Int.natCast_natAbs]
      exact abs_of_neg hneg
    simp only [parseIntChars, if_true, parseNatChars_natToChars]
    rw [Option.some_inj, habs]
    omega
  · rename_i hpos
    match hn : natToChars i.toNat with
    | [] => exact absurd hn (natToChars_ne_nil _)
    | c :: rest =>
      have hdig : c.isDigit = true := by
        have hall := natToChars_all_digits i.toNat
        rw [hn] at hall
        simp only [List.all_cons, Bool.and_eq_true] at hall
        exact hall.1
      have hc : c ≠ '-' := by
        intro hh
        rw [hh] at hdig
        exact absurd hdig (by decide)
      simp only [parseIntChars, if_neg hc]
      rw [← hn]
      simp only [parseNatChars_natToChars]
      rw [Option.some_inj]
      omega

theorem splitSemi_no_semi (f : List Char) (h : ';' ∉ f) : splitSemi f = [f] := by
  induction f with
  | nil => rfl
  | cons c rest ih =>
    have hc : c ≠ ';' := fun hh => h (hh ▸ List.mem_cons_self c rest)
    have hrest : ';' ∉ rest := fun hh => h (List.mem_cons_of_mem c hh)
    simp only [splitSemi, if_neg hc, ih hrest]

theorem splitSemi_append (f rest : List Char) (h : ';' ∉ f) :
    splitSemi (f ++ ';' :: rest) = f :: splitSemi rest := by
  induction f with
  | nil => simp [splitSemi]
  | cons c f2 ih =>
    have hc : c ≠ ';' := fun hh => h (hh ▸ List.mem_cons_self c f2)
    have hf2 : ';' ∉ f2 := fun hh => h (List.mem_cons_of_mem c hh)
    simp only [List.cons_append, splitSemi, if_neg hc, List.append_eq, ih hf2]

theorem splitSemi_joinSemi (fields : List (List Char)) (hne : fields ≠ [])
    (h : ∀ f ∈ fields, ';' ∉ f) :
    splitSemi (joinSemi fields) = fields := by
  induction fields with
  | nil => exact absurd rfl hne
  | cons f rest ih =>
    cases rest with
    | nil => exact splitSemi_no_semi f (h f (List.mem_cons_self f []))
    | cons g r =>
      have hstep : joinSemi (f :: g :: r) = f ++ ';' :: joinSemi (g :: r) := rfl
      rw [hstep, splitSemi_append f _ (h f (List.mem_cons_self f _))]
      rw [ih (by simp) (fun x hx => h x (List.mem_cons_of_mem f hx))]

theorem dropWhile_eq_self_of_head {p : Char → Bool} {l : List Char}
    (h : ∀ c, l.head? = some c → p c = false) : l.dropWhile p = l := by
  cases l with
  | nil => rfl
  | cons c rest =>
    rw [List.dropWhile_cons, if_neg]
    rw [h c rfl]
    simp

theorem pyStrip_eq_self (l : List Char)
    (h1 : ∀ c, l.head? = some c → isPySpace c = false)
    (h2 : ∀ c, l.getLast? = some c → isPySpace c = false) :
    pyStrip l = l := by
  unfold pyStrip
  rw [dropWhile_eq_self_of_head h1]
  rw [dropWhile_eq_self_of_head (by
    intro c hc
    rw [List.head?_reverse] at hc
    exact h2 c hc)]
  exact List.reverse_reverse l

theorem head?_joinSemi (f : List Char) (rest : List (List Char)) (h : f ≠ []) :
    (joinSemi (f :: rest)).head? = f.head? := by
  cases rest with
  | nil => rfl
  | cons g r =>
    have hstep : joinSemi (f :: g :: r) = f ++ ';' :: joinSemi (g :: r) := rfl
    rw [hstep]
    cases f with
    | nil => exact absurd rfl h
    | cons c f2 => rfl

theorem joinSemi_ne_nil_of_two (f g : List Char) (r : List (List Char)) :
    joinSemi (f :: g :: r) ≠ [] := by
  have hstep : joinSemi (f :: g :: r) = f ++ ';' :: joinSemi (g :: r) := rfl
  rw [hstep]
  simp

/-- The last character of a list is not Python whitespace. -/
def lastNotSpace (l : List Char) : Prop :=
  ∀ c, l.getLast? = some c → isPySpace c = false

theorem lastNotSpace_cons_semi (l : List Char) (h : lastNotSpace l) :
    lastNotSpace (';' :: l) := by
  intro c hc
  cases l with
  | nil =>
    simp only [List.getLast?_singleton, Option.some_inj] at hc
    subst hc
    decide
  | cons x xs =>
    rw [List.getLast?_cons_cons] at hc
    exact h c hc

theorem lastNotSpace_append (l1 l2 : List Char) (h2 : lastNotSpace l2)
    (hne : l2 ≠ []) : lastNotSpace (l1 ++ l2) := by
  intro c hc
  rw [List.getLast?_append] at hc
  match hl : l2.getLast? with
  | some y =>
    rw [hl] at hc
    simp only [Option.or_some, Option.some_inj] at hc
    subst hc
    exact h2 y hl
  | none =>
    rw [List.getLast?_eq_none_iff] at hl
    exact absurd hl hne

theorem lastNotSpace_joinSemi (f : List Char) (hf : lastNotSpace f) :
    ∀ fs : List (List Char), lastNotSpace (joinSemi (fs ++ [f])) := by
  intro fs
  induction fs with
  | nil => exact hf
  | cons g gs ih =>
    cases hg2 : gs ++ [f] with
    | nil => simp at hg2
    | cons g2 r2 =>
      rw [hg2] at ih
      have hstep : joinSemi (g :: g2 :: r2) = g ++ ';' :: joinSemi (g2 :: r2) := rfl
      rw [List.cons_append, hg2, hstep]
      exact lastNotSpace_append g _ (lastNotSpace_cons_semi _ ih) (by simp)

/-- Greedy scan of up to `maxN` digit characters, as `strptime`'s
`\d{1,n}` field regexes do. -/
def takeDigits : Nat → List Char → (List Char × List Char)
  | 0, cs => ([], cs)
  | _ + 1, [] => ([], [])
  | k + 1, c :: rest =>
    if c.isDigit then
      let p := takeDigits k rest
      (c :: p.1, p.2)
    else ([], c :: rest)

/-- Parse one numeric `strptime` field of at most `maxN` digits. -/
def parseField (maxN : Nat) (cs : List Char) : Option (Nat × List Char) :=
  let p := takeDigits maxN cs
  match parseNatChars p.1 with
  | some n => some (n, p.2)
  | none => none

/-- Expect a literal separator character. -/
def expectChar (c : Char) : List Char → Option (List Char)
  | [] => none
  | d :: rest => if d = c then some rest else none

/-- Validity ranges enforced by `datetime.strptime` (the regexes plus the
`datetime` constructor): year 1-9999, month 1-12, day within the month,
hour 0-23, minute and second 0-59. -/
def validDate (y mo d h mi s : Nat) : Bool :=
  1 ≤ y && y ≤ 9999 && 1 ≤ mo && mo ≤ 12 && 1 ≤ d && d ≤ daysInMonth y mo
    && h ≤ 23 && mi ≤ 59 && s ≤ 59

/-- Validity of a `DateTime` under `validDate`. -/
def DateTime.Valid (d : DateTime) : Prop :=
  validDate d.year d.month d.day d.hour d.minute d.second = true

/-- Embedding of `datetime.strptime(s, "%Y-%m-%d %H:%M:%S")`: the numeric
fields are greedy 1-4 (year) and 1-2 digit scans, the separators literal,
the whole input must be consumed, and the ranges are validated. -/
def parseDateTimeChars (cs : List Char) : Option DateTime := do
  let (y, r1) ← parseField 4 cs
  let r2 ← expectChar '-' r1
  let (mo, r3) ← parseField 2 r2
  let r4 ← expectChar '-' r3
  let (d, r5) ← parseField 2 r4
  let r6 ← expectChar ' ' r5
  let (h, r7) ← parseField 2 r6
  let r8 ← expectChar ':' r7
  let (mi, r9) ← parseField 2 r8
  let r10 ← expectChar ':' r9
  let (s, r11) ← parseField 2 r10
  if r11 = [] ∧ validDate y mo d h mi s then
    some ⟨y, mo, d, h, mi, s⟩
  else none

/-- Embedding of `datetime.strptime(s, "%Y-%m-%d %H:%M:%SZ")`, the second
format `util.str_time` falls back to. -/
def parseDateTimeCharsZ (cs : List Char) : Option DateTime := do
  let (y, r1) ← parseField 4 cs
  let r2 ← expectChar '-' r1
  let (mo, r3) ← parseField 2 r2
  let r4 ← expectChar '-' r3
  let (d, r5) ← parseField 2 r4
  let r6 ← expectChar ' ' r5
  let (h, r7) ← parseField 2 r6
  let r8 ← expectChar ':' r7
  let (mi, r9) ← parseField 2 r8
  let r10 ← expectChar ':' r9
  let (s, r11) ← parseField 2 r10
  let r12 ← expectChar 'Z' r11
  if r12 = [] ∧ validDate y mo d h mi s then
    some ⟨y, mo, d, h, mi, s⟩
  else none

/-- Embedding of `util.str_time` on a string input: try the plain format,
then the `Z`-suffixed one; `none` when both raise `ValueError`. -/
def strTime (cs : List Char) : Option DateTime :=
  match parseDateTimeChars cs with
  | some d => some d
  | none => parseDateTimeCharsZ cs

theorem takeDigits_exact (ds : List Char) :
    ∀ rest, (∀ c ∈ ds, c.isDigit = true) →
    takeDigits ds.length (ds ++ rest) = (ds, rest) := by
  induction ds with
  | nil => intro rest h; rfl
  | cons c ds2 ih =>
    intro rest h
    have hc : c.isDigit = true := h c (List.mem_cons_self c ds2)
    simp only [List.length_cons, List.cons_append, takeDigits, if_pos hc, List.append_eq]
    rw [ih rest (fun x hx => h x (List.mem_cons_of_mem c hx))]

theorem pad2_digits (n : Nat) (h : n < 100) : ∀ c ∈ pad2 n, c.isDigit = true := by
  intro c hc
  simp only [pad2, List.mem_cons, List.mem_singleton, List.mem_nil_iff, or_false] at hc
  rcases hc with rfl | rfl
  · exact digitChar_isDigit (n / 10) (by omega)
  · exact digitChar_isDigit (n % 10) (by omega)

theorem pad4_digits (n : Nat) (h : n < 10000) : ∀ c ∈ pad4 n, c.isDigit = true := by
  intro c hc
  simp only [pad4, List.mem_append] at hc
  rcases hc with hc | hc
  · exact pad2_digits (n / 100) (by omega) c hc
  · exact pad2_digits (n % 100) (by omega) c hc

theorem parseNatChars_pad2 (n : Nat) (h : n < 100) : parseNatChars (pad2 n) = some n := by
  unfold parseNatChars
  rw [if_pos ⟨by simp [pad2], by
    rw [List.all_eq_true]
    intro c hc
    exact pad2_digits n h c hc⟩]
  simp only [pad2, List.foldl_cons, List.foldl_nil]
  rw [digitVal_digitChar (n / 10) (by omega), digitVal_digitChar (n % 10) (by omega)]
  congr 1
  omega

theorem parseNatChars_pad4 (n : Nat) (h : n < 10000) :
    parseNatChars (pad4 n) = some n := by
  unfold parseNatChars
  rw [if_pos ⟨by simp [pad4, pad2], by
    rw [List.all_eq_true]
    intro c hc
    exact pad4_digits n h c hc⟩]
  simp only [pad4, pad2, List.foldl_append, List.foldl_cons, List.foldl_nil]
  rw [digitVal_digitChar (n / 100 / 10) (by omega),
    digitVal_digitChar (n / 100 % 10) (by omega),
    digitVal_digitChar (n % 100 / 10) (by omega),
    digitVal_digitChar (n % 100 % 10) (by omega)]
  congr 1
  omega

theorem parseField_pad2 (n : Nat) (h : n < 100) (rest : List Char) :
    parseField 2 (pad2 n ++ rest) = some (n, rest) := by
  unfold parseField
  have hl : (pad2 n).length = 2 := by simp [pad2]
  have ht := takeDigits_exact (pad2 n) rest (pad2_digits n h)
  rw [hl] at ht
  simp only [ht, parseNatChars_pad2 n h]

theorem parseField_pad4 (n : Nat) (h : n < 10000) (rest : List Char) :
    parseField 4 (pad4 n ++ rest) = some (n, rest) := by
  unfold parseField
  have hl : (pad4 n).length = 4 := by simp [pad4, pad2]
  have ht := takeDigits_exact (pad4 n) rest (pad4_digits n h)
  rw [hl] at ht
  simp only [ht, parseNatChars_pad4 n h]

theorem expectChar_cons (c : Char) (rest : List Char) :
    expectChar c (c :: rest) = some rest := by
  simp [expectChar]

theorem daysInMonth_le (y m : Nat) : daysInMonth y m ≤ 31 := by
  unfold daysInMonth
  split
  · split <;> omega
  · split <;> omega

theorem parseDateTimeChars_timeStr (d : DateTime) (h : DateTime.Valid d) :
    parseDateTimeChars (timeStrChars d) = some d := by
  have hb : validDate d.year d.month d.day d.hour d.minute d.second = true := h
  have hbb := hb
  unfold validDate at hbb
  simp only [Bool.and_eq_true, decide_eq_true_eq] at hbb
  obtain ⟨⟨⟨⟨⟨⟨⟨⟨hy1, hy2⟩, hm1⟩, hm2⟩, hd1⟩, hd2⟩, hh⟩, hmi⟩, hs⟩ := hbb
  have hd31 : d.day ≤ 31 := le_trans hd2 (daysInMonth_le d.year d.month)
  have hline : timeStrChars d
      = pad4 d.year ++ ('-' :: (pad2 d.month ++ ('-' :: (pad2 d.day
        ++ (' ' :: (pad2 d.hour ++ (':' :: (pad2 d.minute
        ++ (':' :: (pad2 d.second ++ ([] : List Char))))))))))) := by
    simp [timeStrChars, dateChars]
  rw [hline]
  unfold parseDateTimeChars
  rw [parseField_pad4 d.year (by omega)]
  simp only [Option.bind_eq_bind, Option.some_bind]
  rw [expectChar_cons]
  simp only [Option.some_bind]
  rw [parseField_pad2 d.month (by omega)]
  simp only [Option.some_bind]
  rw [expectChar_cons]
  simp only [Option.some_bind]
  rw [parseField_pad2 d.day (by omega)]
  simp only [Option.some_bind]
  rw [expectChar_cons]
  simp only [Option.some_bind]
  rw [parseField_pad2 d.hour (by omega)]
  simp only [Option.some_bind]
  rw [expectChar_cons]
  simp only [Option.some_bind]
  rw [parseField_pad2 d.minute (by omega)]
  simp only [Option.some_bind]
  rw [expectChar_cons]
  simp only [Option.some_bind]
  rw [parseField_pad2 d.second (by omega)]
  simp only [Option.some_bind]
  rw [if_pos (by first | exact ⟨trivial, hb⟩ | exact ⟨rfl, hb⟩)]

theorem strTime_timeStr (d : DateTime) (h : DateTime.Valid d) :
    strTime (timeStrChars d) = some d := by
  unfold strTime
  rw [parseDateTimeChars_timeStr d h]

/-- Characters of Python `str(None)`. -/
def noneChars : List Char := ['N', 'o', 'n', 'e']

/-- The `__format` helper of `__save_channels` on an optional datetime:
`util.time_str` for a datetime, `str(None)` otherwise. -/
def formatOptDate : Option DateTime → List Char
  | some d => timeStrChars d
  | none => noneChars

/-- The `__format` helper on an optional string field. -/
def formatOptStr : Option String → List Char
  | some s => s.data
  | none => noneChars

/-- The `__format` helper on the rank. -/
def formatRank : Option Int → List Char
  | some r => intToChars r
  | none => noneChars

/-- The nine `asdict` values of a channel, in field-declaration order, as
written by `__save_channels`. -/
def channelFields (ch : Channel) : List (List Char) :=
  [ch.name.data, formatRank ch.rank, formatOptDate ch.last_download,
   formatOptDate ch.last_complete, formatOptDate ch.last_attempt,
   formatOptDate ch.last_error, formatOptStr ch.last_error_message,
   formatOptStr ch.last_resolution, formatOptStr ch.last_bitrate]

/-- One channel line of the file. -/
def channelLine (ch : Channel) : List Char := joinSemi (channelFields ch)

/-- The header line `Channels.__header` (without its newline). -/
def headerLine : List Char :=
  ("# Channel;Rank;Last Download;Last Complete;Last Attempt;Last Error;"
    ++ "Last Error Message;Resolution;Bitrate").data

/-- Embedding of `Channels.__save_channels`: the header, then one line per
channel. -/
def saveChannels (channels : List Channel) : List (List Char) :=
  headerLine :: channels.map channelLine

/-- Normalisation of an optional datetime field in `Channel.__post_init__`:
the literal `"None"` becomes `None`, anything else goes through
`util.str_time` (a parse failure is a raised `ValueError`, the outer
`none`). -/
def parseOptDate (f : List Char) : Option (Option DateTime) :=
  if f = noneChars then some none else (strTime f).map some

/-- Normalisation of an optional string field in `Channel.__post_init__`. -/
def parseOptStr (f : List Char) : Option String :=
  if f = noneChars then none else some (String.mk f)

/-- Embedding of `Channel.__post_init__` on the nine strings of a parsed
line: `int(...)` on the rank, `"None"` normalisation on the optional
fields; `none` is a raised `ValueError`. -/
def postInit (nameF rankF dlF cpF atF erF emF resF bitF : List Char) :
    Option Channel :=
  match parseIntChars rankF with
  | none => none
  | some rank =>
  match parseOptDate dlF with
  | none => none
  | some ldl =>
  match parseOptDate cpF with
  | none => none
  | some lcp =>
  match parseOptDate atF with
  | none => none
  | some lat =>
  match parseOptDate erF with
  | none => none
  | some ler =>
  some { name := String.mk nameF
         rank := some rank
         last_download := ldl
         last_complete := lcp
         last_attempt := lat
         last_error := ler
         last_error_message := parseOptStr emF
         last_resolution := parseOptStr resF
         last_bitrate := parseOptStr bitF }

/-- Outcome of one line of the loading comprehension. -/
inductive LineResult where
  | skipped
  | loaded (ch : Channel)
  | raised
deriving DecidableEq, Repr

/-- One line of the `Channels.__init__` parsing comprehension: strip the
line, skip blank lines and `#` comments, skip lines with fewer than nine
fields; `Channel(*p)` raises `TypeError` on more than nine fields and
`ValueError` when `__post_init__` cannot parse one — either exception
aborts the whole load. -/
def parseLine (ln : List Char) : LineResult :=
  match pyStrip ln with
  | [] => .skipped
  | c :: srest =>
    if c = '#' then .skipped
    else
      match splitSemi (c :: srest) with
      | [a, b, c3, d4, e5, f6, g7, h8, i9] =>
        match postInit a b c3 d4 e5 f6 g7 h8 i9 with
        | some ch => .loaded ch
        | none => .raised
      | p => if p.length < 9 then .skipped else .raised

/-- The loading loop: collect loaded channels in order, stopping with
`none` on a raised exception. -/
def loadAux : List (List Char) → List Channel → Option (List Channel)
  | [], acc => some acc
  | ln :: rest, acc =>
    match parseLine ln with
    | .skipped => loadAux rest acc
    | .loaded ch => loadAux rest (acc ++ [ch])
    | .raised => none

/-- Embedding of the loading path of `Channels.__init__` (no supplemental
"new channels" file present): parse every line, then
`__remove_duplicates`. -/
def loadChannels (lines : List (List Char)) : Option (List Channel) :=
  (loadAux lines []).map removeDuplicates

theorem removeDuplicatesAux_nodup (rest : List Channel) :
    ∀ (seen : List (String × Nat)) (result : List Channel),
    (∀ ch ∈ rest, lookupSeen seen ch.name = none) →
    rest.Pairwise (fun a b => a.name ≠ b.name) →
    removeDuplicatesAux rest seen result = result ++ rest := by
  induction rest with
  | nil => intro seen result _ _; simp [removeDuplicatesAux]
  | cons ch rest2 ih =>
    intro seen result hnone hpair
    have hl : lookupSeen seen ch.name = none := hnone ch (List.mem_cons_self ch rest2)
    have hstep : removeDuplicatesAux (ch :: rest2) seen result
        = removeDuplicatesAux rest2 ((ch.name, result.length) :: seen) (result ++ [ch]) := by
      simp [removeDuplicatesAux, hl]
    rw [hstep, ih]
    · simp
    · intro ch2 hch2
      simp only [lookupSeen]
      rw [if_neg ((List.pairwise_cons.mp hpair).1 ch2 hch2)]
      exact hnone ch2 (List.mem_cons_of_mem ch hch2)
    · exact (List.pairwise_cons.mp hpair).2

theorem removeDuplicates_nodup (channels : List Channel)
    (h : channels.Pairwise (fun a b => a.name ≠ b.name)) :
    removeDuplicates channels = channels := by
  unfold removeDuplicates
  rw [removeDuplicatesAux_nodup channels [] [] (fun ch _ => rfl) h]
  simp

theorem stringMk_data (s : String) : String.mk s.data = s := by
  cases s
  rfl

theorem timeStrChars_length (d : DateTime) : (timeStrChars d).length = 19 := by
  simp [timeStrChars, dateChars, pad4, pad2]

theorem timeStrChars_ne_noneChars (d : DateTime) : timeStrChars d ≠ noneChars := by
  intro heq
  have hlen := timeStrChars_length d
  rw [heq] at hlen
  simp [noneChars] at hlen

theorem parseOptDate_formatOptDate (o : Option DateTime)
    (h : ∀ d, o = some d → DateTime.Valid d) :
    parseOptDate (formatOptDate o) = some o := by
  cases o with
  | none =>
    simp [formatOptDate, parseOptDate]
  | some d =>
    show parseOptDate (timeStrChars d) = some (some d)
    unfold parseOptDate
    rw [if_neg (timeStrChars_ne_noneChars d), strTime_timeStr d (h d rfl)]
    rfl

theorem parseOptStr_formatOptStr (o : Option String) (h : o ≠ some "None") :
    parseOptStr (formatOptStr o) = o := by
  cases o with
  | none =>
    simp [formatOptStr, parseOptStr]
  | some s =>
    have hne : s.data ≠ noneChars := by
      intro heq
      apply h
      have hs : s = "None" := by
        cases s with
        | mk cs =>
          cases heq
          decide
      rw [hs]
    show parseOptStr s.data = some s
    unfold parseOptStr
    rw [if_neg hne, stringMk_data]

/-- Per-channel bound on an optional datetime field: either absent or a
calendar-valid timestamp. -/
def optDateValid : Option DateTime → Bool
  | some d => validDate d.year d.month d.day d.hour d.minute d.second
  | none => true

/-- The saved name's first character survives `strip` and is not the
comment marker. -/
def headOkB : List Char → Bool
  | [] => false
  | c :: _ => !isPySpace c && !(c = '#')

/-- The last character of a field list survives `strip`. -/
def lastOkB (l : List Char) : Bool :=
  match l.getLast? with
  | some c => !isPySpace c
  | none => true

theorem lastNotSpace_of_lastOkB (l : List Char) (h : lastOkB l = true) :
    lastNotSpace l := by
  intro c hc
  unfold lastOkB at h
  rw [hc] at h
  simpa using h

theorem valid_of_optDateValid (o : Option DateTime) (h : optDateValid o = true) :
    ∀ d, o = some d → DateTime.Valid d := by
  intro d hd
  rw [hd] at h
  exact h

/-- The side conditions under which one saved channel line parses back to
the identical channel: a non-null rank, no `;` or newline inside any
serialised field, a name whose first character survives `strip` and does
not start a comment, a last field whose final character survives `strip`,
no string field spelled exactly `"None"`, and calendar-valid timestamps. -/
def RoundTrippable (ch : Channel) : Prop :=
  ch.rank.isSome = true ∧
  (∀ f ∈ channelFields ch, ';' ∉ f ∧ '\n' ∉ f) ∧
  headOkB ch.name.data = true ∧
  lastOkB (formatOptStr ch.last_bitrate) = true ∧
  ch.last_error_message ≠ some "None" ∧
  ch.last_resolution ≠ some "None" ∧
  ch.last_bitrate ≠ some "None" ∧
  optDateValid ch.last_download = true ∧
  optDateValid ch.last_complete = true ∧
  optDateValid ch.last_attempt = true ∧
  optDateValid ch.last_error = true

instance (ch : Channel) : Decidable (RoundTrippable ch) := by
  unfold RoundTrippable
  infer_instance

theorem postInit_channelFields (ch : Channel) (h : RoundTrippable ch) :
    postInit ch.name.data (formatRank ch.rank) (formatOptDate ch.last_download)
      (formatOptDate ch.last_complete) (formatOptDate ch.last_attempt)
      (formatOptDate ch.last_error) (formatOptStr ch.last_error_message)
      (formatOptStr ch.last_resolution) (formatOptStr ch.last_bitrate)
      = some ch := by
  obtain ⟨hrank, hsemi, hhead, hlast, hem, hres, hbit, hdl, hcp, hat, her⟩ := h
  obtain ⟨r, hr⟩ := Option.isSome_iff_exists.mp hrank
  have h1 : parseIntChars (formatRank ch.rank) = some r := by
    rw [hr]
    exact parseIntChars_intToChars r
  have h2 : parseOptDate (formatOptDate ch.last_download) = some ch.last_download :=
    parseOptDate_formatOptDate _ (valid_of_optDateValid _ hdl)
  have h3 : parseOptDate (formatOptDate ch.last_complete) = some ch.last_complete :=
    parseOptDate_formatOptDate _ (valid_of_optDateValid _ hcp)
  have h4 : parseOptDate (formatOptDate ch.last_attempt) = some ch.last_attempt :=
    parseOptDate_formatOptDate _ (valid_of_optDateValid _ hat)
  have h5 : parseOptDate (formatOptDate ch.last_error) = some ch.last_error :=
    parseOptDate_formatOptDate _ (valid_of_optDateValid _ her)
  have h6 : parseOptStr (formatOptStr ch.last_error_message) = ch.last_error_message :=
    parseOptStr_formatOptStr _ hem
  have h7 : parseOptStr (formatOptStr ch.last_resolution) = ch.last_resolution :=
    parseOptStr_formatOptStr _ hres
  have h8 : parseOptStr (formatOptStr ch.last_bitrate) = ch.last_bitrate :=
    parseOptStr_formatOptStr _ hbit
  simp only [postInit, h1, h2, h3, h4, h5, h6, h7, h8, stringMk_data]
  rw [← hr]

theorem parseLine_channelLine (ch : Channel) (h : RoundTrippable ch) :
    parseLine (channelLine ch) = LineResult.loaded ch := by
  obtain ⟨hrank, hsemi, hhead, hlast, hem, hres, hbit, hdl, hcp, hat, her⟩ := h
  obtain ⟨c, nrest, hname, hcsp, hchash⟩ : ∃ c nrest,
      ch.name.data = c :: nrest ∧ isPySpace c = false ∧ ¬(c = '#') := by
    cases hn : ch.name.data with
    | nil =>
      rw [hn] at hhead
      exact absurd hhead (by simp [headOkB])
    | cons c nrest =>
      rw [hn] at hhead
      simp only [headOkB, Bool.and_eq_true, Bool.not_eq_true',
        decide_eq_false_iff_not] at hhead
      exact ⟨c, nrest, rfl, hhead.1, hhead.2⟩
  have hcl : channelLine ch = c :: (nrest ++ ';' :: joinSemi
      [formatRank ch.rank, formatOptDate ch.last_download,
       formatOptDate ch.last_complete, formatOptDate ch.last_attempt,
       formatOptDate ch.last_error, formatOptStr ch.last_error_message,
       formatOptStr ch.last_resolution, formatOptStr ch.last_bitrate]) := by
    unfold channelLine channelFields
    rw [hname]
    rfl
  have hheadc : (channelLine ch).head? = some c := by
    rw [hcl]
    rfl
  have hlastc : lastNotSpace (channelLine ch) :=
    lastNotSpace_joinSemi (formatOptStr ch.last_bitrate)
      (lastNotSpace_of_lastOkB _ hlast)
      [ch.name.data, formatRank ch.rank, formatOptDate ch.last_download,
       formatOptDate ch.last_complete, formatOptDate ch.last_attempt,
       formatOptDate ch.last_error, formatOptStr ch.last_error_message,
       formatOptStr ch.last_resolution]
  have hstrip : pyStrip (channelLine ch) = channelLine ch := by
    refine pyStrip_eq_self _ ?_ hlastc
    intro c2 hc2
    rw [hheadc] at hc2
    injection hc2 with hcc
    rw [← hcc]
    exact hcsp
  have hstrip2 := hcl ▸ hstrip
  simp only [parseLine, hcl, hstrip2]
  rw [if_neg hchash, ← hcl]
  have hsplit : splitSemi (channelLine ch) = channelFields ch := by
    unfold channelLine
    exact splitSemi_joinSemi _ (by unfold channelFields; simp)
      (fun f hf => (hsemi f hf).1)
  simp only [hsplit, channelFields]
  simp only [postInit_channelFields ch
    ⟨hrank, hsemi, hhead, hlast, hem, hres, hbit, hdl, hcp, hat, her⟩]

theorem loadAux_channelLines (roster : List Channel)
    (h : ∀ ch ∈ roster, RoundTrippable ch) :
    ∀ acc, loadAux (roster.map channelLine) acc = some (acc ++ roster) := by
  induction roster with
  | nil =>
    intro acc
    simp [loadAux]
  | cons ch rest ih =>
    intro acc
    rw [List.map_cons]
    simp only [loadAux, parseLine_channelLine ch (h ch (List.mem_cons_self ch rest))]
    rw [ih (fun ch2 hch2 => h ch2 (List.mem_cons_of_mem ch hch2)) (acc ++ [ch])]
    simp

/-- A roster whose save file does not load back: a null rank (without any
`;`, newline, or malformed timestamp in sight). -/
def c10NoRank : Channel where
  name := "alpha"
  rank := none
  last_download := none
  last_complete := none
  last_attempt := none
  last_error := none
  last_error_message := none
  last_resolution := none
  last_bitrate := none

/-- A channel whose name starts the comment marker. -/
def c10Comment : Channel where
  name := "#tag"
  rank := some 5
  last_download := none
  last_complete := none
  last_attempt := none
  last_error := none
  last_error_message := none
  last_resolution := none
  last_bitrate := none

/-- First of two channels sharing a name. -/
def c10DupA : Channel where
  name := "dup"
  rank := some 1
  last_download := none
  last_complete := none
  last_attempt := none
  last_error := none
  last_error_message := none
  last_resolution := none
  last_bitrate := none

/-- Second of two channels sharing a name. -/
def c10DupB : Channel where
  name := "dup"
  rank := some 2
  last_download := none
  last_complete := none
  last_attempt := none
  last_error := none
  last_error_message := none
  last_resolution := some "720p"
  last_bitrate := none

/-- C10 counterexample: three rosters with no `;` and no newline in any
string field and no malformed timestamp, for which save-then-reload is not
the identity. A null rank is written as `None` and `int("None")` raises
`ValueError`, aborting the whole load; a name starting with `#` is dropped
as a comment line; two records with the same name are merged into one by
`__remove_duplicates`. -/
theorem c10_counterexample_not_identity :
    loadChannels (saveChannels [c10NoRank]) = none ∧
    loadChannels (saveChannels [c10Comment]) = some [] ∧
    (loadChannels (saveChannels [c10DupA, c10DupB])).map List.length = some 1 := by
  decide

/-- C10 (amended): for every roster with pairwise-distinct names all of
whose records satisfy the `RoundTrippable` side conditions — non-null rank,
no `;` or newline in any serialised field, a name that survives `strip`
and is not a comment, a final field that survives `strip`, no string field
equal to the literal `"None"`, calendar-valid timestamps — writing the
file with `__save_channels` and re-reading it through the `Channels`
constructor reproduces the roster field for field. -/
theorem c10_save_load_roundtrip (roster : List Channel)
    (hnodup : roster.Pairwise (fun a b => a.name ≠ b.name))
    (h : ∀ ch ∈ roster, RoundTrippable ch) :
    loadChannels (saveChannels roster) = some roster := by
  unfold loadChannels saveChannels
  have hhdr : parseLine headerLine = LineResult.skipped := by decide
  simp only [loadAux, hhdr]
  rw [loadAux_channelLines roster h []]
  simp [removeDuplicates_nodup roster hnodup]

/-- A two-channel roster exercising every field shape: both optional
datetime states, negative and positive ranks, present and absent strings. -/
def c10Roster : List Channel :=
  [{ name := "alpha"
     rank := some 3
     last_download := some ⟨2024, 5, 17, 10, 30, 0⟩
     last_complete := some ⟨2024, 5, 17, 11, 0, 5⟩
     last_attempt := none
     last_error := none
     last_error_message := some "timeout"
     last_resolution := none
     last_bitrate := some "4500k" },
   { name := "beta"
     rank := some (-2)
     last_download := none
     last_complete := none
     last_attempt := some ⟨2023, 12, 31, 23, 59, 59⟩
     last_error := some ⟨2024, 2, 29, 0, 0, 0⟩
     last_error_message := none
     last_resolution := some "1080p60"
     last_bitrate := none }]

/-- Witness: the amended C10 theorem applied to the concrete roster. -/
theorem c10_save_load_roundtrip_witness :
    c10Roster.Pairwise (fun a b => a.name ≠ b.name) ∧
    (∀ ch ∈ c10Roster, RoundTrippable ch) ∧
    loadChannels (saveChannels c10Roster) = some c10Roster :=
  ⟨by decide, by decide, c10_save_load_roundtrip c10Roster (by decide) (by decide)⟩

/-- Witness for C7 at a concrete envelope destined to no consumer. -/
theorem c7_nonmatching_requeued_witness :
    ((⟨-9, Payload.pynone⟩ : Envelope).dest ≠ MSG_CHAN →
      slotCallbackStep [] ⟨-9, Payload.pynone⟩ = ([], [⟨-9, Payload.pynone⟩])) ∧
    ((⟨-9, Payload.pynone⟩ : Envelope).dest ≠ MSG_SLOT →
      monitorStep [] [] (fun _ => false) (fun _ => false) ⟨-9, Payload.pynone⟩
        = (([], noEffects []), [⟨-9, Payload.pynone⟩])) ∧
    ((⟨-9, Payload.pynone⟩ : Envelope).dest ≠ MSG_DISP →
      (⟨-9, Payload.pynone⟩ : Envelope).dest < 0 →
      displayDispatch ⟨-9, Payload.pynone⟩ = (false, [⟨-9, Payload.pynone⟩])) :=
  c7_nonmatching_requeued [] [] [] (fun _ => false) (fun _ => false)
    ⟨-9, Payload.pynone⟩

end CBT

